import Mathlib

/-!
rms-sdk-for-cpp: the PDF crypto handler and protector

A shallow embedding of `sdk/rms_sdk/FileAPI/PDFProtector.cpp`.

* Bytes are natural numbers below 256, buffers are lists of bytes.
* `uint32_t` arithmetic is written with an explicit `% 2 ^ 32`,
  `uint64_t` arithmetic with an explicit `% 2 ^ 64`.
* A `std::iostream` shared through `shared_ptr` is a cell of a heap of byte
  strings, named by its index; two shared streams made from the same iostream
  name the same cell.
* Undefined behaviour and thrown exceptions are the `Except.error` results.
-/

namespace RmsSdk

/-! ## Machine integers and buffers -/

/-- Wrap to `uint32_t`. -/
def u32 (n : Nat) : Nat := n % 2 ^ 32

/-- Wrap to `uint64_t`. -/
def u64 (n : Nat) : Nat := n % 2 ^ 64

/-- Byte `i` of the object representation of a `uint32_t` on the little-endian
host the code assumes: `((char*)&v)[i]`. -/
def byteOfU32 (v i : Nat) : Nat := v / 2 ^ (8 * i) % 256

/-- The value `memcpy` stores into a zeroed `uint64_t` from four bytes
`b0 b1 b2 b3` on a little-endian host. -/
def u64OfBytes (b0 b1 b2 b3 : Nat) : Nat :=
  b0 + 256 * b1 + 65536 * b2 + 16777216 * b3

/-- Ways a call can leave the defined behaviour of the program; `outOfFuel` is
returned by a loop of the embedding whose iteration bound was too small. -/
inductive Fault where
  | nullDeref
  | outOfBounds
  | streamException
  | outOfFuel
  deriving DecidableEq, Repr

/-! ## Shared iostreams -/

/-- The iostreams alive in the program; a `shared_ptr<std::iostream>` and every
`SharedStream` made from it (also by `Clone`) is the index of one cell. -/
structure Heap where
  cells : Nat → List Nat
  next : Nat

/-- Contents of a stream. -/
def Heap.read (h : Heap) (s : Nat) : List Nat := h.cells s

/-- Replace the contents of a stream. -/
def Heap.store (h : Heap) (s : Nat) (bytes : List Nat) : Heap :=
  { h with cells := Function.update h.cells s bytes }

/-- `std::make_shared<std::stringstream>()`: a new, empty stream. -/
def Heap.alloc (h : Heap) : Nat × Heap :=
  (h.next, { cells := Function.update h.cells h.next [], next := h.next + 1 })

/-- Bytes of `content` after `data` is written at position `off` (a seek followed
by a write); a gap past the end is filled with zero bytes. -/
def writeAt (content : List Nat) (off : Nat) (data : List Nat) : List Nat :=
  content.take off ++ List.replicate (off - content.length) 0 ++ data
    ++ content.drop (off + data.length)

/-- `len` bytes of memory from offset `off` of a pointer whose memory is
`mem`: what `memcpy(dst, p + off, len)` copies. -/
def memRead (mem : Nat → Nat) (off len : Nat) : List Nat :=
  (List.range len).map (fun j => mem (off + j))

/-- Memory seen from a pointer to an array holding `bytes`: the array, then
whatever lies behind it (`beyond`), which the program does not control. -/
def memOf (bytes : List Nat) (beyond : Nat → Nat) : Nat → Nat :=
  fun i => if i < bytes.length then bytes.getD i 0 else beyond (i - bytes.length)

/-! ## Policy, crypto provider and the block based protected stream

`rmscrypto::api::BlockBasedProtectedStream` and the crypto provider are used by
`PDFProtector.cpp` and defined elsewhere. The provider is a parameter; the stream
follows section 4.1 of the specification. -/

/-- The cipher of a policy: `GetBlockSize` and the encryption and decryption of
the plaintext of one stream block, given the block number. -/
structure CryptoProvider where
  GetBlockSize : Nat
  Encrypt : Nat → List Nat → List Nat
  Decrypt : Nat → List Nat → List Nat

/-- The part of `modernapi::UserPolicy` the file uses: the crypto provider of its
protection policy, `DoesUseDeprecatedAlgorithms` and `IsIssuedToOwner`. -/
structure UserPolicy where
  cryptoProvider : CryptoProvider
  DoesUseDeprecatedAlgorithms : Bool
  IsIssuedToOwner : Bool := true

/-- Modelled from the spec: `BlockBasedProtectedStream` (its source is not in
this file), the tuple (provider, backing store, content start, content size, stream
block size) of section 3. The backing store is the heap cell `backing`. -/
structure BlockBasedProtectedStream where
  cryptoProvider : CryptoProvider
  backing : Nat
  contentStart : Nat
  contentSize : Nat
  blockSize : Nat

namespace BlockBasedProtectedStream

/-- Modelled from the spec: decrypt up to `n` consecutive ciphertext blocks of size
`B`, the first of them block number `k`, from the ciphertext `c`; stops where `c`
ends. -/
def readBlocks (p : CryptoProvider) (B : Nat) : Nat → Nat → List Nat → List Nat
  | 0, _, _ => []
  | n + 1, k, c =>
    if c = [] then [] else p.Decrypt k (c.take B) ++ readBlocks p B n (k + 1) (c.drop B)

/-- Modelled from the spec: encrypt the plaintext `d` block by block, the first
block being number `k` (`n` bounds the number of blocks). -/
def writeBlocks (p : CryptoProvider) (B : Nat) : Nat → Nat → List Nat → List Nat
  | 0, _, _ => []
  | n + 1, k, d =>
    if d = [] then [] else p.Encrypt k (d.take B) ++ writeBlocks p B n (k + 1) (d.drop B)

/-- Modelled from the spec: `size()`, the current logical size: the length of
the plaintext of all blocks of the backing store. -/
def Size (s : BlockBasedProtectedStream) (h : Heap) : Nat :=
  let c := (h.read s.backing).drop s.contentStart
  (readBlocks s.cryptoProvider s.blockSize c.length 0 c).length

/-- Modelled from the spec: `read_async(buf, len, offset)`: the covering block
range `[offset/B, ceil((offset+len)/B))` is read from the backing store and
decrypted, and the requested plaintext slice is returned (shorter at the end of the
stream). -/
def ReadAsync (s : BlockBasedProtectedStream) (h : Heap) (len offset : Nat) : List Nat :=
  let B := s.blockSize
  let c := (h.read s.backing).drop s.contentStart
  let first := offset / B
  let count := (offset % B + len + B - 1) / B
  ((readBlocks s.cryptoProvider B count first (c.drop (first * B))).drop (offset % B)).take len

/-- Modelled from the spec: `write_async(buf, len, offset)`: a read-modify-write
of the covering block range: read, decrypt, overlay the plaintext, encrypt, write
back. Returns the number of bytes written, `len`, and the heap. -/
def WriteAsync (s : BlockBasedProtectedStream) (h : Heap) (buf : List Nat) (offset : Nat) :
    Nat × Heap :=
  let B := s.blockSize
  let whole := h.read s.backing
  let c := whole.drop s.contentStart
  let first := offset / B
  let count := (offset % B + buf.length + B - 1) / B
  let old := readBlocks s.cryptoProvider B count first (c.drop (first * B))
  let plain := writeAt old (offset % B) buf
  let enc := writeBlocks s.cryptoProvider B plain.length first plain
  let c' := c.take (first * B) ++ enc ++ c.drop ((first + count) * B)
  (buf.length, h.store s.backing (whole.take s.contentStart ++ c'))

/-- Modelled from the spec: `flush()`. Writes reach the backing store at once in
this model, so nothing is left to force out. -/
def Flush (_s : BlockBasedProtectedStream) (h : Heap) : Heap := h

end BlockBasedProtectedStream

/-! ## `PDFProtector`: stream helpers (lines 545-648) -/

/-- The members of `PDFProtector` the crypto handler reaches: the user policy
(a `shared_ptr`, possibly null) and the cached cipher block size. -/
structure PDFProtector where
  m_userPolicy : Option UserPolicy
  m_blockSize : Nat

/-- `PDFProtector::CreateProtectedStream`: caches the cipher block size, and
creates a protected stream on a clone of `stream` with content start 0, the given
content size, and stream block size 512 for a 512 byte cipher block and 4096
otherwise. -/
def PDFProtector.CreateProtectedStream (self : PDFProtector) (stream : Nat)
    (contentSize : Nat) : Except Fault (BlockBasedProtectedStream × PDFProtector) :=
  match self.m_userPolicy with
  | none => .error .nullDeref
  | some policy =>
    let cryptoProvider := policy.cryptoProvider
    let m_blockSize := cryptoProvider.GetBlockSize
    let protectedStreamBlockSize := if m_blockSize = 512 then 512 else 4096
    let backingStreamImpl := stream
    let contentStartPosition := 0
    .ok ({ cryptoProvider := cryptoProvider, backing := backingStreamImpl,
           contentStart := contentStartPosition, contentSize := contentSize,
           blockSize := protectedStreamBlockSize },
         { self with m_blockSize := m_blockSize })

/-- The `uint64_t` expression `(contentSize + m_blockSize - 1) & ~(m_blockSize - 1)`. -/
def roundToBlock (contentSize m_blockSize : Nat) : Nat :=
  let mask := u64 (m_blockSize + 2 ^ 64 - 1)
  u64 (contentSize + m_blockSize + 2 ^ 64 - 1) &&& (mask ^^^ (2 ^ 64 - 1))

/-- The `while` loop of `EncryptStream` (lines 594-611), at most `fuel`
iterations (every iteration handles at least one byte, so `totalSize` iterations are
enough). The local `buffer` is overwritten by `memcpy` before each use. -/
def PDFProtector.EncryptStream.loop (pBuffer : Nat → Nat)
    (pStream : BlockBasedProtectedStream) (totalSize : Nat) :
    Nat → Nat → Nat → Heap → Except Fault Heap
  | 0, readPosition, _, h =>
    if u64 (totalSize + 2 ^ 64 - readPosition) > 0 then .error .outOfFuel else .ok h
  | fuel + 1, readPosition, writePosition, h =>
    if u64 (totalSize + 2 ^ 64 - readPosition) > 0 then
      let bufSize := 4096
      let offsetRead := readPosition
      let offsetWrite := writePosition
      let toProcess := min bufSize (u64 (totalSize + 2 ^ 64 - readPosition))
      let readPosition := u64 (readPosition + toProcess)
      let writePosition := u64 (writePosition + toProcess)
      let buffer := memRead pBuffer offsetRead toProcess
      let (written, h) := pStream.WriteAsync h buffer offsetWrite
      if written ≠ toProcess then .error .streamException
      else PDFProtector.EncryptStream.loop pBuffer pStream totalSize fuel
            readPosition writePosition h
    else .ok h

/-- `PDFProtector::EncryptStream`. `pBuffer` is the memory behind the pointer
(`none` for `nullptr`), `pStream` the protected stream (`none` for a null
`shared_ptr`). -/
def PDFProtector.EncryptStream (self : PDFProtector) (h : Heap) (pBuffer : Option (Nat → Nat))
    (bufferSize : Nat) (pStream : Option BlockBasedProtectedStream) (bFinish : Bool) :
    Except Fault Heap :=
  let bufferSize := u32 bufferSize
  let flush : Except Fault Heap :=
    if bFinish then
      match pStream with
      | none => .error .nullDeref
      | some stream => .ok (stream.Flush h)
    else .ok h
  match pBuffer with
  | none => flush
  | some mem =>
    if 0 = bufferSize then flush
    else
      let contentSize := bufferSize
      match self.m_userPolicy with
      | none => .error .nullDeref
      | some policy =>
        let isECB := policy.DoesUseDeprecatedAlgorithms
        let totalSize :=
          if isECB then roundToBlock contentSize self.m_blockSize else contentSize
        match pStream with
        | none => if totalSize = 0 ∧ bFinish = false then .ok h else .error .nullDeref
        | some stream =>
          match PDFProtector.EncryptStream.loop mem stream totalSize totalSize 0 0 h with
          | .error e => .error e
          | .ok h => .ok (if bFinish then stream.Flush h else h)

/-- The `while` loop of `DecryptStream` (lines 628-646), at most `fuel`
iterations. `buffer` is the 4096 byte local vector, whose bytes beyond those just
read are left from earlier iterations. -/
def PDFProtector.DecryptStream.loop (outputIOS : Nat) (pStream : BlockBasedProtectedStream)
    (originalContentSize totalSize : Nat) :
    Nat → Nat → Nat → List Nat → Heap → Except Fault Heap
  | 0, readPosition, _, _, h =>
    if u64 (totalSize + 2 ^ 64 - readPosition) > 0 then .error .outOfFuel else .ok h
  | fuel + 1, readPosition, writePosition, buffer, h =>
    if u64 (totalSize + 2 ^ 64 - readPosition) > 0 then
      let bufSize := 4096
      let offsetRead := readPosition
      let offsetWrite := writePosition
      let toProcess := min bufSize (u64 (totalSize + 2 ^ 64 - readPosition))
      let originalRemaining := min bufSize (u64 (originalContentSize + 2 ^ 64 - readPosition))
      let readPosition := u64 (readPosition + toProcess)
      let writePosition := u64 (writePosition + toProcess)
      let data := pStream.ReadAsync h toProcess offsetRead
      let buffer := data ++ buffer.drop data.length
      let read := data.length
      if read = 0 then .ok h
      else
        let h := h.store outputIOS (writeAt (h.read outputIOS) offsetWrite
                  (buffer.take originalRemaining))
        PDFProtector.DecryptStream.loop outputIOS pStream originalContentSize totalSize fuel
          readPosition writePosition buffer h
    else .ok h

/-- `PDFProtector::DecryptStream`. -/
def PDFProtector.DecryptStream (h : Heap) (outputIOS : Nat)
    (pStream : BlockBasedProtectedStream) (originalContentSize : Nat) : Except Fault Heap :=
  let bufSize := 4096
  let buffer := List.replicate bufSize 0
  let totalSize := u64 (pStream.Size h)
  PDFProtector.DecryptStream.loop outputIOS pStream originalContentSize totalSize
    totalSize 0 0 buffer h

/-! ## `PDFCryptoHandlerImpl` (lines 28-214) -/

/-- The members of `PDFCryptoHandlerImpl`. The protector is held through a
`shared_ptr`; streams are named by their heap cell, `none` is `nullptr`. -/
structure PDFCryptoHandlerImpl where
  m_pPDFProtector : Option PDFProtector
  m_bProgressiveStart : Bool
  m_dataToDecrypted : Option Nat
  m_objnum : Nat
  m_sharedProtectedStream : Option BlockBasedProtectedStream
  m_outputIOS : Option Nat
  m_outputSharedStream : Option Nat

namespace PDFCryptoHandlerImpl

/-- The constructor (lines 28-39). -/
def new (pPDFProtector : Option PDFProtector) : PDFCryptoHandlerImpl :=
  { m_pPDFProtector := pPDFProtector
    m_bProgressiveStart := false
    m_dataToDecrypted := none
    m_objnum := 0
    m_sharedProtectedStream := none
    m_outputIOS := none
    m_outputSharedStream := none }

/-- `DecryptStart` (lines 51-55). -/
def DecryptStart (self : PDFCryptoHandlerImpl) (h : Heap) (objnum _gennum : Nat) :
    PDFCryptoHandlerImpl × Heap :=
  let (s, h) := h.alloc
  ({ self with m_objnum := objnum, m_dataToDecrypted := some s }, h)

/-- `DecryptStream` (lines 57-61): appends `src_size` bytes read from `src_buf`
to the accumulation stream; `dest_buf` is not touched. -/
def DecryptStream (self : PDFCryptoHandlerImpl) (h : Heap) (src_buf : Nat → Nat)
    (src_size : Nat) (dest_buf : List Nat) :
    Except Fault (Bool × PDFCryptoHandlerImpl × Heap × List Nat) :=
  match self.m_dataToDecrypted with
  | none => .error .nullDeref
  | some s =>
    .ok (true, self, h.store s (h.read s ++ memRead src_buf 0 (u32 src_size)), dest_buf)

/-- `DecryptFinish` (lines 63-105). The output shared stream is created from
`protectedIOS`, the accumulation stream itself (line 81); `outputSS` is allocated
and not used. `beyond` is the memory behind the array of `decryptedData`. -/
def DecryptFinish (self : PDFCryptoHandlerImpl) (h : Heap) (dest_buf : List Nat)
    (beyond : Nat → Nat) : Except Fault (Bool × PDFCryptoHandlerImpl × Heap × List Nat) :=
  match self.m_dataToDecrypted with
  | none => .error .nullDeref
  | some d =>
    let count := u64 (h.read d).length
    if count ≤ 0 then
      .ok (true, { self with m_objnum := 0, m_dataToDecrypted := none }, h, dest_buf)
    else
      let protectedIOS := d
      let inputSharedStream := protectedIOS
      match self.m_pPDFProtector with
      | none => .error .nullDeref
      | some protector =>
        match protector.CreateProtectedStream inputSharedStream count with
        | .error e => .error e
        | .ok (protectedStream, protector) =>
          let (_outputSS, h) := h.alloc
          let outputSharedStream := protectedIOS
          match PDFProtector.DecryptStream h outputSharedStream protectedStream count with
          | .error e => .error e
          | .ok h =>
            let decryptedData := h.read outputSharedStream
            let mem := memOf decryptedData beyond
            let bufDestSize0 := mem 3
            let bufDestSize1 := mem 2
            let bufDestSize2 := mem 1
            let bufDestSize3 := mem 0
            let dwTotalDestSize := u64OfBytes bufDestSize0 bufDestSize1 bufDestSize2 bufDestSize3
            let dest_buf := dest_buf ++ memRead mem 4 dwTotalDestSize
            .ok (true, { self with m_pPDFProtector := some protector, m_objnum := 0,
                                   m_dataToDecrypted := none }, h, dest_buf)

/-- The four header bytes and the copy of the source that `EncryptContent` and
`ProgressiveEncryptContent` build in `contentAddPre` (lines 125-129, 167-171). -/
def contentAddPre (src_buf : Nat → Nat) (src_size : Nat) : List Nat :=
  [byteOfU32 src_size 3, byteOfU32 src_size 2, byteOfU32 src_size 1, byteOfU32 src_size 0]
    ++ memRead src_buf 0 src_size

/-- `EncryptContent` (lines 118-144). Returns the result, the bytes written to
`dest_buf`, `*dest_size`, and the new state (with a null protector the call returns
false and writes nothing). `beyond` is the memory behind the array allocated for
`contentAddPre`. A `uint32_t` sum `src_size + 4` that wraps makes the array too
small for what is copied into it. -/
def EncryptContent (self : PDFCryptoHandlerImpl) (h : Heap) (_objnum _version : Nat)
    (src_buf : Nat → Nat) (src_size : Nat) (beyond : Nat → Nat) :
    Except Fault (Bool × List Nat × Nat × PDFCryptoHandlerImpl × Heap) :=
  match self.m_pPDFProtector with
  | none => .ok (false, [], 0, self, h)
  | some protector =>
    let contentSizeAddPre := u32 (u32 src_size + 4)
    if 4 + u32 src_size > contentSizeAddPre then .error .outOfBounds
    else
      let content := contentAddPre src_buf (u32 src_size)
      let (sstream, h) := h.alloc
      let outputSharedStream := sstream
      match protector.CreateProtectedStream outputSharedStream contentSizeAddPre with
      | .error e => .error e
      | .ok (protectedStream, protector) =>
        match protector.EncryptStream h (some (memOf content beyond)) contentSizeAddPre
            (some protectedStream) true with
        | .error e => .error e
        | .ok h =>
          let nSize := (h.read outputSharedStream).length
          let dest := h.read outputSharedStream
          .ok (true, dest, u32 nSize, { self with m_pPDFProtector := some protector }, h)

/-- `ProgressiveEncryptStart` (lines 146-154); `MIN_RAW_SIZE` is a constant of
the header. -/
def ProgressiveEncryptStart (MIN_RAW_SIZE : Nat) (self : PDFCryptoHandlerImpl)
    (_objnum _version raw_size : Nat) : Bool × PDFCryptoHandlerImpl :=
  if raw_size > MIN_RAW_SIZE then
    (true, { self with m_bProgressiveStart := true })
  else
    (false, self)

/-- `ProgressiveEncryptContent` (lines 156-190). In the first call after a
start, the array of `contentAddPre` is owned by a `shared_ptr` local to the `if`
block, so it is freed before `EncryptStream` reads it: `afterFree` maps what was
stored in the array to the memory found behind the pointer at that time. -/
def ProgressiveEncryptContent (self : PDFCryptoHandlerImpl) (h : Heap) (_objnum _version : Nat)
    (src_buf : Nat → Nat) (src_size : Nat) (dest_buf : List Nat)
    (afterFree : List Nat → Nat → Nat) :
    Except Fault (Bool × PDFCryptoHandlerImpl × Heap × List Nat) :=
  match self.m_pPDFProtector with
  | none => .error .nullDeref
  | some protector =>
    if self.m_bProgressiveStart then
      let contentSizeAddPre := u32 (u32 src_size + 4)
      if 4 + u32 src_size > contentSizeAddPre then .error .outOfBounds
      else
        let content := contentAddPre src_buf (u32 src_size)
        let (sstream, h) := h.alloc
        match protector.CreateProtectedStream sstream contentSizeAddPre with
        | .error e => .error e
        | .ok (stream, protector) =>
          let self := { self with m_outputIOS := some sstream,
                                  m_outputSharedStream := some sstream,
                                  m_sharedProtectedStream := some stream,
                                  m_pPDFProtector := some protector }
          match protector.EncryptStream h (some (afterFree content)) contentSizeAddPre
              self.m_sharedProtectedStream false with
          | .error e => .error e
          | .ok h => .ok (true, { self with m_bProgressiveStart := false }, h, dest_buf)
    else
      let contentSizeAddPre := u32 src_size
      match protector.EncryptStream h (some src_buf) contentSizeAddPre
          self.m_sharedProtectedStream false with
      | .error e => .error e
      | .ok h => .ok (true, { self with m_bProgressiveStart := false }, h, dest_buf)

/-- `ProgressiveEncryptFinish` (lines 192-214). -/
def ProgressiveEncryptFinish (self : PDFCryptoHandlerImpl) (h : Heap) (dest_buf : List Nat) :
    Except Fault (Bool × PDFCryptoHandlerImpl × Heap × List Nat) :=
  match self.m_pPDFProtector with
  | none => .error .nullDeref
  | some protector =>
    match protector.EncryptStream h none 0 self.m_sharedProtectedStream true with
    | .error e => .error e
    | .ok h =>
      match self.m_outputSharedStream with
      | none => .error .nullDeref
      | some out =>
        let pDataRead := h.read out
        let dest_buf := dest_buf ++ pDataRead
        .ok (true, { self with m_sharedProtectedStream := none, m_outputIOS := none,
                               m_outputSharedStream := none }, h, dest_buf)

end PDFCryptoHandlerImpl

/-! ## `PDFCryptoHandlerImpl::EncryptGetSize` (lines 107-116) -/

/-- `EncryptGetSize`: every assignment to the `uint32_t encryptedSize` wraps. -/
def EncryptGetSize (objnum version : Nat) (src_buf : List Nat) (src_size : Nat) : Nat :=
  let encryptedSize := 0
  let encryptedSize := u32 src_size
  let encryptedSize := u32 (encryptedSize + 4)
  let encryptedSize := u32 (encryptedSize + u32 (16 - encryptedSize % 16))
  encryptedSize

/-! ## `PDFProtector::IsProtected` (lines 457-480) -/

/-- `std::wstring::compare`: negative, zero or positive as the first string is
lexicographically below, equal to or above the second. -/
def wstringCompare : List Nat → List Nat → Int
  | [], [] => 0
  | [], _ :: _ => -1
  | _ :: _, [] => 1
  | a :: as, b :: bs =>
    if a < b then -1 else if b < a then 1 else wstringCompare as bs

/-- Constants of the PDF object model headers, which the file only uses. -/
structure WrapperConsts where
  PDFWRAPPERDOC_TYPE_IRMV1 : Nat
  PDFWRAPPERDOC_TYPE_IRMV2 : Nat
  PDF_PROTECTOR_WRAPPER_SUBTYPE : List Nat

/-- What `IsProtected` reads from the wrapper document of the input stream:
`GetWrapperType`, `GetPayLoadSize` (a `uint32_t`) and the string set by
`GetCryptographicFilter`. -/
structure WrapperDoc where
  wrapperType : Nat
  payloadSize : Nat
  wsGraphicFilter : List Nat

/-- `PDFProtector::IsProtected`. -/
def IsProtected (k : WrapperConsts) (doc : WrapperDoc) : Bool :=
  let wrapperType := doc.wrapperType
  let payloadSize := doc.payloadSize
  let wsGraphicFilter := doc.wsGraphicFilter
  if (wrapperType ≠ k.PDFWRAPPERDOC_TYPE_IRMV1 ∧ wrapperType ≠ k.PDFWRAPPERDOC_TYPE_IRMV2)
      ∨ (payloadSize ≤ 0)
      ∨ wstringCompare wsGraphicFilter k.PDF_PROTECTOR_WRAPPER_SUBTYPE ≠ 0 then
    false
  else
    true

/-! ## `PDFSecurityHandlerImpl::OnInit` and the public operations of `PDFProtector`
(lines 237-297, 329-455, 482-543, 666-669) -/

/-- The kinds of failure the operations throw. -/
inductive RMSError where
  | StreamException
  | AlreadyProtected
  | NotValidFile
  | CorruptFile
  | CannotAcquirePolicy
  | InvalidArgument
  | RightsError
  deriving DecidableEq, Repr

/-- What the security and crypto handlers of this file throw while the object model
runs them. -/
inductive HandlerError where
  | CannotAcquirePolicy
  | InvalidArgument
  | RightsError
  | StreamException
  deriving DecidableEq, Repr

/-- The failure kind of an exception of a handler. -/
def HandlerError.toRMSError : HandlerError → RMSError
  | .CannotAcquirePolicy => .CannotAcquirePolicy
  | .InvalidArgument => .InvalidArgument
  | .RightsError => .RightsError
  | .StreamException => .StreamException

/-- `modernapi::GetUserPolicyResultStatus`: `Success` or another status. -/
inductive GetUserPolicyResultStatus where
  | Success
  | Other (code : Nat)
  deriving DecidableEq, Repr

/-- The result of `modernapi::UserPolicy::Acquire`: the status and the policy
(a `shared_ptr`, possibly null). -/
structure GetUserPolicyResult where
  Status : GetUserPolicyResultStatus
  Policy : Option UserPolicy

/-- `PDFProtector::SetUserPolicy` (lines 666-669). -/
def PDFProtector.SetUserPolicy (self : PDFProtector) (userPolicy : Option UserPolicy) :
    PDFProtector :=
  { self with m_userPolicy := userPolicy }

/-- `PDFSecurityHandlerImpl::OnInit` (lines 237-297), from the result
`policyRequest` of `UserPolicy::Acquire` on: the value returned or the exception
thrown, and the protector afterwards. -/
def OnInit (m_pPDFProtector : PDFProtector) (policyRequest : GetUserPolicyResult) :
    Except HandlerError Bool × PDFProtector :=
  if policyRequest.Status ≠ GetUserPolicyResultStatus.Success then
    (.error .CannotAcquirePolicy, m_pPDFProtector)
  else
    let userPolicy := policyRequest.Policy
    match userPolicy with
    | none => (.error .InvalidArgument, m_pPDFProtector)
    | some policy =>
      let bIsIssuedToOwner := policy.IsIssuedToOwner
      if !bIsIssuedToOwner then
        (.error .RightsError, m_pPDFProtector)
      else
        (.ok true, m_pPDFProtector.SetUserPolicy userPolicy)

/-- The steps of the public operations that create policies, encrypt, decrypt or
write. -/
inductive Effect where
  | createUserPolicy
  | createCustomEncryptedFile
  | createUnencryptedWrapper
  | startGetPayload
  | createSecurityHandler
  | unprotectCustomEncryptedFile
  deriving DecidableEq, Repr

/-- What the collaborators of `Protect` answer: the result code of
`CreateCustomEncryptedFile`, whether `m_inputWrapperStream` is set, and the result
of `CreateUnencryptedWrapper`. -/
structure ProtectEnv where
  PDFCREATOR_ERR_SUCCESS : Nat
  createResult : Nat
  hasInputWrapperStream : Bool
  wrapperResult : Bool

/-- `PDFProtector::Protect` (lines 482-543): the exception thrown, if any, and
the steps taken. -/
def PDFProtector.Protect (self : PDFProtector) (env : ProtectEnv) :
    Except RMSError Unit × List Effect :=
  match self.m_userPolicy with
  | none => (.error .InvalidArgument, [])
  | some _ =>
    if env.PDFCREATOR_ERR_SUCCESS ≠ env.createResult then
      (.error .CorruptFile, [.createCustomEncryptedFile])
    else if !env.hasInputWrapperStream then
      (.error .InvalidArgument, [.createCustomEncryptedFile])
    else if !env.wrapperResult then
      (.error .InvalidArgument, [.createCustomEncryptedFile, .createUnencryptedWrapper])
    else
      (.ok (), [.createCustomEncryptedFile, .createUnencryptedWrapper])

/-- `PDFProtector::ProtectWithTemplate` (lines 329-359). `isOpen` is
`outputStream->is_open()`, `doc` what `IsProtected` reads from the input, `created`
the policy `UserPolicy::CreateFromTemplateDescriptor` returns. The result is the
exception thrown, if any, the protector afterwards, and the steps taken. -/
def PDFProtector.ProtectWithTemplate (self : PDFProtector) (k : WrapperConsts)
    (doc : WrapperDoc) (isOpen : Bool) (created : Option UserPolicy) (env : ProtectEnv) :
    Except RMSError Unit × PDFProtector × List Effect :=
  if !isOpen then
    (.error .StreamException, self, [])
  else if IsProtected k doc then
    (.error .AlreadyProtected, self, [])
  else
    let self := { self with m_userPolicy := created }
    let (r, effects) := self.Protect env
    (r, self, .createUserPolicy :: effects)

/-- `PDFProtector::ProtectWithCustomRights` (lines 361-390); `created` is the
policy `UserPolicy::Create` returns. -/
def PDFProtector.ProtectWithCustomRights (self : PDFProtector) (k : WrapperConsts)
    (doc : WrapperDoc) (isOpen : Bool) (created : Option UserPolicy) (env : ProtectEnv) :
    Except RMSError Unit × PDFProtector × List Effect :=
  if !isOpen then
    (.error .StreamException, self, [])
  else if IsProtected k doc then
    (.error .AlreadyProtected, self, [])
  else
    let self := { self with m_userPolicy := created }
    let (r, effects) := self.Protect env
    (r, self, .createUserPolicy :: effects)

/-- `rmscore::fileapi::UnprotectResult`. -/
inductive UnprotectResult where
  | SUCCESS
  | FAILURE
  deriving DecidableEq, Repr

/-- `PDFProtector::Unprotect` (lines 392-455). `inner` is what
`UnprotectCustomEncryptedFile` does: a result code, or an exception of the handlers it
runs. The result is the value returned or the exception thrown, and the steps
taken. -/
def PDFProtector.Unprotect (k : WrapperConsts) (doc : WrapperDoc) (isOpen : Bool)
    (PDFCREATOR_ERR_SUCCESS : Nat) (inner : Except HandlerError Nat) :
    Except RMSError UnprotectResult × List Effect :=
  if !isOpen then
    (.error .StreamException, [])
  else
    let wrapperType := doc.wrapperType
    let payloadSize := doc.payloadSize
    let wsGraphicFilter := doc.wsGraphicFilter
    if (wrapperType ≠ k.PDFWRAPPERDOC_TYPE_IRMV1 ∧ wrapperType ≠ k.PDFWRAPPERDOC_TYPE_IRMV2)
        ∨ (payloadSize ≤ 0)
        ∨ wstringCompare wsGraphicFilter k.PDF_PROTECTOR_WRAPPER_SUBTYPE ≠ 0 then
      (.error .NotValidFile, [])
    else
      let effects := [Effect.startGetPayload, .createSecurityHandler, .unprotectCustomEncryptedFile]
      match inner with
      | .error e => (.error e.toRMSError, effects)
      | .ok result =>
        if PDFCREATOR_ERR_SUCCESS ≠ result then (.error .CorruptFile, effects)
        else (.ok .SUCCESS, effects)

/-! ## `FileFormat` (file_format.cpp) -/

/-- The members of `FileFormat` that `GetTags` and `SetTags` use, and a count of
the `ReadTags` calls made so far. -/
structure FileFormat (Tag : Type) where
  mTags : List Tag
  mHasTags : Bool
  readCalls : Nat

/-- The constructor (lines 6-13). -/
def FileFormat.new (Tag : Type) : FileFormat Tag :=
  { mTags := [], mHasTags := false, readCalls := 0 }

/-- `FileFormat::GetTags` (lines 15-22); `ReadTags i` is what the virtual
`ReadTags` returns on its call number `i`. -/
def FileFormat.GetTags {Tag : Type} (ReadTags : Nat → List Tag) (self : FileFormat Tag) :
    List Tag × FileFormat Tag :=
  if !self.mHasTags then
    let self := { self with mTags := ReadTags self.readCalls, readCalls := self.readCalls + 1 }
    let self := { self with mHasTags := true }
    (self.mTags, self)
  else
    (self.mTags, self)

/-- `FileFormat::SetTags` (lines 24-27). -/
def FileFormat.SetTags {Tag : Type} (self : FileFormat Tag) (tags : List Tag) : FileFormat Tag :=
  { self with mTags := tags, mHasTags := true }

/-- A call on a `FileFormat`. -/
inductive TagCall (Tag : Type) where
  | getTags
  | setTags (tags : List Tag)

/-- Run a sequence of calls; returns what the `GetTags` calls returned, in order,
and the final state. -/
def FileFormat.run {Tag : Type} (ReadTags : Nat → List Tag) :
    FileFormat Tag → List (TagCall Tag) → List (List Tag) × FileFormat Tag
  | self, [] => ([], self)
  | self, .getTags :: rest =>
    let (tags, self) := self.GetTags ReadTags
    let (out, self) := FileFormat.run ReadTags self rest
    (tags :: out, self)
  | self, .setTags tags :: rest => FileFormat.run ReadTags (self.SetTags tags) rest

/-- What the specification says the `GetTags` calls of a sequence return: the
value of the most recent `SetTags` (`last`) if there was one, otherwise the value
`ReadTags` returned on the first `GetTags`. -/
def FileFormat.specReturns {Tag : Type} (ReadTags : Nat → List Tag) :
    Option (List Tag) → List (TagCall Tag) → List (List Tag)
  | _, [] => []
  | last, .getTags :: rest => last.getD (ReadTags 0) :: FileFormat.specReturns ReadTags last rest
  | _, .setTags tags :: rest => FileFormat.specReturns ReadTags (some tags) rest

/-- Wrapper constants for the examples. -/
def exampleConsts : WrapperConsts :=
  { PDFWRAPPERDOC_TYPE_IRMV1 := 1, PDFWRAPPERDOC_TYPE_IRMV2 := 2,
    PDF_PROTECTOR_WRAPPER_SUBTYPE := [77, 105, 99] }

/-- An input that `IsProtected` accepts under `exampleConsts`. -/
def exampleProtectedDoc : WrapperDoc :=
  { wrapperType := 2, payloadSize := 100, wsGraphicFilter := [77, 105, 99] }

/-! ## Custom properties of OPC documents

`CustomPropertiesXml` is declared in `custom_properties.h`, which is not among the
sources; only its tests and `XmlNode` are. It is modelled from section 4.5 of
the specification and the tests, over the parsed document. -/

/-- Modelled from the spec: the typed value of a value child, `vt:lpwstr` (a
string), `vt:i4` (an integer) or an element of another type with its text. -/
inductive VtValue where
  | lpwstr (text : String)
  | i4 (value : Int)
  | other (type : String) (text : String)
  deriving DecidableEq, Repr

/-- Modelled from the spec: the value child of a child element: its namespace
prefix (`XmlNode::GetNodeNamespace`) and its typed value. -/
structure ValueNode where
  nsPrefix : String
  value : VtValue
  deriving DecidableEq, Repr

/-- Modelled from the spec: a child element of `Properties`: its element name
(`XmlNode::GetNodeName`), the attributes `fmtid`, `pid`, `name`
(`XmlNode::GetAttributeValue`) and its value child, if any. -/
structure PropertyNode where
  elementName : String
  fmtid : String
  pid : Nat
  name : String
  valueChild : Option ValueNode
  deriving DecidableEq, Repr

/-- Modelled from the spec: `CustomProperty`, a (name, value) pair of strings. -/
abbrev CustomProperty := String × String

/-- Modelled from the spec: the pair a child element stands for: it must be named
`property`, its value child must have prefix `vt`, and the value type must be
`lpwstr` (the text) or `i4` (the integer as its decimal string); other children
stand for nothing. -/
def PropertyNode.property? (c : PropertyNode) : Option CustomProperty :=
  if c.elementName = "property" then
    match c.valueChild with
    | some v =>
      if v.nsPrefix = "vt" then
        match v.value with
        | .lpwstr text => some (c.name, text)
        | .i4 n => some (c.name, toString n)
        | .other _ _ => none
      else none
    | none => none
  else none

/-- Modelled from the spec: `CustomPropertiesXml::GetProperties`, the pairs of the
recognized children in document order; the other children are skipped. -/
def GetProperties (doc : List PropertyNode) : List CustomProperty :=
  doc.filterMap PropertyNode.property?

/-- Modelled from the spec: the largest `pid` among property elements, 0 without
any. -/
def maxPid (doc : List PropertyNode) : Nat :=
  (doc.filter (fun c => c.elementName = "property")).foldr (fun c m => max c.pid m) 0

/-- Modelled from the spec: the element added for a pair, a string property with
the given `pid`. -/
def newProperty (pid : Nat) (p : CustomProperty) : PropertyNode :=
  { elementName := "property", fmtid := "\x7bD5CDD505-2E9C-101B-9397-08002B2CF9AE\x7d",
    pid := pid, name := p.1, valueChild := some { nsPrefix := "vt", value := .lpwstr p.2 } }

/-- Modelled from the spec: the additions with consecutive `pid` values from
`first` on. -/
def numbered (first : Nat) : List CustomProperty → List PropertyNode
  | [] => []
  | p :: rest => newProperty first p :: numbered (first + 1) rest

/-- Modelled from the spec: the children that survive a removal: all but the
property elements named in `keysToRemove`, in their original order. -/
def keptNodes (doc : List PropertyNode) (keysToRemove : List String) : List PropertyNode :=
  doc.filter (fun c => !(c.elementName = "property" && keysToRemove.contains c.name))

/-- Modelled from the spec: `CustomPropertiesXml::UpdateProperties`: the property
elements named in `keysToRemove` are removed (a key naming no property, or named
twice, removes nothing more), then the additions are appended in the given order
with `pid` values from the largest kept `pid` plus one on. -/
def UpdateProperties (doc : List PropertyNode) (propertiesToAdd : List CustomProperty)
    (keysToRemove : List String) : List PropertyNode :=
  let kept := keptNodes doc keysToRemove
  kept ++ numbered (maxPid kept + 1) propertiesToAdd

/-- Modelled from the spec: the text of a value child. -/
def ValueNode.serialize (v : ValueNode) : String :=
  match v.value with
  | .lpwstr text => "<" ++ v.nsPrefix ++ ":lpwstr>" ++ text ++ "</" ++ v.nsPrefix ++ ":lpwstr>"
  | .i4 n => "<" ++ v.nsPrefix ++ ":i4>" ++ toString n ++ "</" ++ v.nsPrefix ++ ":i4>"
  | .other type text =>
    "<" ++ v.nsPrefix ++ ":" ++ type ++ ">" ++ text ++ "</" ++ v.nsPrefix ++ ":" ++ type ++ ">"

/-- Modelled from the spec: the text of a child element, without white space
between elements. -/
def PropertyNode.serialize (c : PropertyNode) : String :=
  "<" ++ c.elementName ++ " fmtid=\"" ++ c.fmtid ++ "\" pid=\"" ++ toString c.pid
    ++ "\" name=\"" ++ c.name ++ "\">"
    ++ (match c.valueChild with
        | some v => v.serialize
        | none => "")
    ++ "</" ++ c.elementName ++ ">"

/-- Modelled from the spec: the fixed header and the opening tag of `Properties`
with the two namespace declarations. -/
def serializeHeader : String :=
  "<?xml version=\"1.0\" encoding=\"utf-8\" standalone=\"yes\"?>"
    ++ "<Properties xmlns=\"http://schemas.openxmlformats.org/officeDocument/2006/custom-properties\""
    ++ " xmlns:vt=\"http://schemas.openxmlformats.org/officeDocument/2006/docPropsVTypes\">"

/-- Modelled from the spec: `CustomPropertiesXml::Serialize`, the canonical XML of
the document. -/
def Serialize (doc : List PropertyNode) : String :=
  serializeHeader ++ String.join (doc.map PropertyNode.serialize) ++ "</Properties>"

/-- A string property element as in the documents of the tests. -/
def testProperty (elementName : String) (pid : Nat) (name : String) (nsPrefix : String)
    (value : VtValue) : PropertyNode :=
  { elementName := elementName, fmtid := "\x7bD5CDD505-2E9C-101B-9397-08002B2CF9AE\x7d",
    pid := pid, name := name, valueChild := some { nsPrefix := nsPrefix, value := value } }

/-- The document `multiPropertyXml` of the tests. -/
def multiPropertyDoc : List PropertyNode :=
  [testProperty "property" 1 "PropName0" "vt" (.lpwstr "PropValue0"),
   testProperty "property" 2 "PropName1" "vt" (.lpwstr "PropValue1"),
   testProperty "property" 3 "PropName2" "vt" (.lpwstr "PropValue2")]

/-- The document `wrongPropertyNodeXml` of the tests. -/
def wrongPropertyNodeDoc : List PropertyNode :=
  [testProperty "property" 1 "PropName0" "vt" (.lpwstr "PropValue0"),
   testProperty "wrong" 2 "PropName1" "vt" (.lpwstr "PropValue1"),
   testProperty "property" 3 "PropName2" "vt" (.i4 2)]

/-- The document `wrongPropertySubNodeXml` of the tests. -/
def wrongPropertySubNodeDoc : List PropertyNode :=
  [testProperty "property" 1 "PropName0" "vt" (.lpwstr "PropValue0"),
   testProperty "property" 2 "PropName1" "vt1" (.lpwstr "PropValue1"),
   testProperty "property" 3 "PropName2" "vt" (.i4 2)]

/-- The string `expectdXml` of the tests. -/
def expectdXml : String :=
  "<?xml version=\"1.0\" encoding=\"utf-8\" standalone=\"yes\"?>"
    ++ "<Properties xmlns=\"http://schemas.openxmlformats.org/officeDocument/2006/custom-properties\" xmlns:vt=\"http://schemas.openxmlformats.org/officeDocument/2006/docPropsVTypes\">"
    ++ "<property fmtid=\"\x7bD5CDD505-2E9C-101B-9397-08002B2CF9AE\x7d\" pid=\"2\" name=\"PropName1\">"
    ++ "<vt:lpwstr>PropValue1</vt:lpwstr>"
    ++ "</property>"
    ++ "<property fmtid=\"\x7bD5CDD505-2E9C-101B-9397-08002B2CF9AE\x7d\" pid=\"3\" name=\"PropName3\">"
    ++ "<vt:lpwstr>PropValue3</vt:lpwstr>"
    ++ "</property>"
    ++ "<property fmtid=\"\x7bD5CDD505-2E9C-101B-9397-08002B2CF9AE\x7d\" pid=\"4\" name=\"PropName4\">"
    ++ "<vt:lpwstr>PropValue4</vt:lpwstr>"
    ++ "</property>"
    ++ "</Properties>"

/-! ## Call sequences of the object model and the policies of the claims -/

/-- Stream block size `CreateProtectedStream` gives the streams of a policy. -/
def UserPolicy.streamBlockSize (u : UserPolicy) : Nat :=
  if u.cryptoProvider.GetBlockSize = 512 then 512 else 4096

/-- A policy whose cipher decrypts what it encrypts: on every non-empty block
plaintext `d` that fits a stream block (a whole number of 16 byte cipher blocks
when the policy uses the deprecated ECB algorithms, whose cipher block is 16 bytes),
decryption undoes encryption, and the ciphertext of the block is no shorter than the
plaintext and fits the stream block. -/
def UserPolicy.Valid (u : UserPolicy) : Prop :=
  (u.DoesUseDeprecatedAlgorithms = true → u.cryptoProvider.GetBlockSize = 16) ∧
  ∀ (k : Nat) (d : List Nat), d ≠ [] → d.length ≤ u.streamBlockSize →
    (u.DoesUseDeprecatedAlgorithms = true → d.length % 16 = 0) →
    u.cryptoProvider.Decrypt k (u.cryptoProvider.Encrypt k d) = d
      ∧ d.length ≤ (u.cryptoProvider.Encrypt k d).length
      ∧ (u.cryptoProvider.Encrypt k d).length ≤ u.streamBlockSize

/-- The cipher `p` decrypts what it encrypts on the non-empty block plaintexts of at
most `B` bytes whose length is a multiple of `a`, with a ciphertext no shorter than
the plaintext that fits the block. -/
def CryptoProvider.Inverts (p : CryptoProvider) (B a : Nat) : Prop :=
  ∀ (k : Nat) (d : List Nat), d ≠ [] → d.length ≤ B → d.length % a = 0 →
    p.Decrypt k (p.Encrypt k d) = d
      ∧ d.length ≤ (p.Encrypt k d).length
      ∧ (p.Encrypt k d).length ≤ B

/-- The granularity of the data `EncryptStream` writes under a policy: 16 bytes in
ECB mode, a byte otherwise. -/
def UserPolicy.align (u : UserPolicy) : Nat :=
  if u.DoesUseDeprecatedAlgorithms then 16 else 1

/-- The number of bytes `EncryptStream` copies from its buffer and writes through
the protected stream for a buffer of `contentSize` bytes (`totalSize`, lines
591-592), when the cached block size is that of the policy. -/
def UserPolicy.totalSize (u : UserPolicy) (contentSize : Nat) : Nat :=
  if u.DoesUseDeprecatedAlgorithms then roundToBlock contentSize u.cryptoProvider.GetBlockSize
  else contentSize

/-- The protected stream `CreateProtectedStream` makes for a policy. -/
def UserPolicy.stream (u : UserPolicy) (backing contentSize : Nat) : BlockBasedProtectedStream :=
  { cryptoProvider := u.cryptoProvider, backing := backing, contentStart := 0,
    contentSize := contentSize, blockSize := u.streamBlockSize }

/-- The backing bytes of a stream of the policy after the plaintext `d` was written
through it from offset 0. -/
def UserPolicy.cipherText (u : UserPolicy) (d : List Nat) : List Nat :=
  BlockBasedProtectedStream.writeBlocks u.cryptoProvider u.streamBlockSize d.length 0 d

/-- A cipher for the examples: every byte is xor-ed with `0x5a`, lengths are kept. -/
def xorProvider (blockSize : Nat) : CryptoProvider :=
  { GetBlockSize := blockSize
    Encrypt := fun _ d => d.map (fun b => b ^^^ 90)
    Decrypt := fun _ d => d.map (fun b => b ^^^ 90) }

/-- An example policy in ECB mode (deprecated algorithms, 16 byte cipher block). -/
def ecbPolicy : UserPolicy :=
  { cryptoProvider := xorProvider 16, DoesUseDeprecatedAlgorithms := true }

/-- An example policy in CBC 4K mode. -/
def cbcPolicy : UserPolicy :=
  { cryptoProvider := xorProvider 4096, DoesUseDeprecatedAlgorithms := false }

/-- Consecutive `DecryptStream` calls, one for each chunk (a pointer and a size). -/
def PDFCryptoHandlerImpl.DecryptStreams (self : PDFCryptoHandlerImpl) (h : Heap)
    (dest_buf : List Nat) : List ((Nat → Nat) × Nat) →
    Except Fault (PDFCryptoHandlerImpl × Heap × List Nat)
  | [] => .ok (self, h, dest_buf)
  | (src_buf, src_size) :: rest =>
    match self.DecryptStream h src_buf src_size dest_buf with
    | .error e => .error e
    | .ok (_, self, h, dest_buf) => PDFCryptoHandlerImpl.DecryptStreams self h dest_buf rest

/-- The calls that decrypt one object: `DecryptStart`, a `DecryptStream` for
each chunk, `DecryptFinish`. -/
def PDFCryptoHandlerImpl.decryptObject (self : PDFCryptoHandlerImpl) (h : Heap)
    (objnum gennum : Nat) (chunks : List ((Nat → Nat) × Nat)) (dest_buf : List Nat)
    (beyond : Nat → Nat) : Except Fault (Bool × PDFCryptoHandlerImpl × Heap × List Nat) :=
  let (self, h) := self.DecryptStart h objnum gennum
  match self.DecryptStreams h dest_buf chunks with
  | .error e => .error e
  | .ok (self, h, dest_buf) => self.DecryptFinish h dest_buf beyond

/-- Consecutive `ProgressiveEncryptContent` calls, one for each chunk. -/
def PDFCryptoHandlerImpl.ProgressiveEncryptContents (self : PDFCryptoHandlerImpl) (h : Heap)
    (objnum version : Nat) (dest_buf : List Nat) (afterFree : List Nat → Nat → Nat) :
    List ((Nat → Nat) × Nat) → Except Fault (PDFCryptoHandlerImpl × Heap × List Nat)
  | [] => .ok (self, h, dest_buf)
  | (src_buf, src_size) :: rest =>
    match self.ProgressiveEncryptContent h objnum version src_buf src_size dest_buf afterFree with
    | .error e => .error e
    | .ok (_, self, h, dest_buf) =>
      PDFCryptoHandlerImpl.ProgressiveEncryptContents self h objnum version dest_buf afterFree rest

/-- The calls that encrypt one object progressively: `ProgressiveEncryptStart`,
and when it returns true a `ProgressiveEncryptContent` for each chunk and
`ProgressiveEncryptFinish`. -/
def PDFCryptoHandlerImpl.progressiveObject (MIN_RAW_SIZE : Nat) (self : PDFCryptoHandlerImpl)
    (h : Heap) (objnum version raw_size : Nat) (chunks : List ((Nat → Nat) × Nat))
    (dest_buf : List Nat) (afterFree : List Nat → Nat → Nat) :
    Except Fault (Bool × PDFCryptoHandlerImpl × Heap × List Nat) :=
  match self.ProgressiveEncryptStart MIN_RAW_SIZE objnum version raw_size with
  | (false, self) => .ok (false, self, h, dest_buf)
  | (true, self) =>
    match self.ProgressiveEncryptContents h objnum version dest_buf afterFree chunks with
    | .error e => .error e
    | .ok (self, h, dest_buf) => self.ProgressiveEncryptFinish h dest_buf

/-- The plaintext held by the pending protected stream of a handler: what reading
the whole stream from logical offset 0 returns. -/
def PDFCryptoHandlerImpl.pendingPlaintext (self : PDFCryptoHandlerImpl) (h : Heap) :
    Option (List Nat) :=
  self.m_sharedProtectedStream.map (fun s => s.ReadAsync h (s.Size h) 0)

/-- Memory behind a freed array that still holds what was stored in it (followed by
zero bytes): the benign outcome of reading it. -/
def intactAfterFree : List Nat → Nat → Nat :=
  fun content => memOf content (fun _ => 0)

/-- The bytes a list of chunks hands over, in call order. -/
def chunkBytes (chunks : List ((Nat → Nat) × Nat)) : List Nat :=
  chunks.flatMap (fun c => memRead c.1 0 (u32 c.2))

/-! ## Sizes (claims C4, C5) -/

/-- C4: for every 32-bit `src_size`, `EncryptGetSize` returns
`src_size + 4 + (16 - (src_size + 4) mod 16)` reduced modulo `2 ^ 32`, which is
exactly that value when `src_size <= 2 ^ 32 - 21`; the result does not depend on
`objnum`, `version` or the buffer, and is a multiple of 16. -/
theorem EncryptGetSize_spec (src_size : Nat) (hsz : src_size < 2 ^ 32)
    (objnum version objnum2 version2 : Nat) (src_buf src_buf2 : List Nat) :
    EncryptGetSize objnum version src_buf src_size
        = (src_size + 4 + (16 - (src_size + 4) % 16)) % 2 ^ 32
      ∧ (src_size ≤ 2 ^ 32 - 21 →
          EncryptGetSize objnum version src_buf src_size
            = src_size + 4 + (16 - (src_size + 4) % 16))
      ∧ EncryptGetSize objnum version src_buf src_size
          = EncryptGetSize objnum2 version2 src_buf2 src_size
      ∧ EncryptGetSize objnum version src_buf src_size % 16 = 0 := by
  simp only [EncryptGetSize, u32]
  norm_num at hsz ⊢
  omega

/-- Witness of C4 at `src_size = 12`: the size is 32. -/
theorem EncryptGetSize_spec_witness :
    (12 < 2 ^ 32) ∧ EncryptGetSize 7 0 [1, 2, 3] 12 = (12 + 4 + (16 - (12 + 4) % 16)) % 2 ^ 32 :=
  ⟨by norm_num, (EncryptGetSize_spec 12 (by norm_num) 7 0 0 0 [1, 2, 3] []).1⟩

/-- C5: a plaintext length that is a multiple of 16 (and at most `2 ^ 32 - 21`)
gives an encrypted size of `src_size + 16`: one whole block more. -/
theorem EncryptGetSize_aligned (src_size : Nat) (hmul : src_size % 16 = 0)
    (hsz : src_size ≤ 2 ^ 32 - 21) (objnum version : Nat) (src_buf : List Nat) :
    EncryptGetSize objnum version src_buf src_size = src_size + 16 := by
  simp only [EncryptGetSize, u32]
  norm_num at hsz ⊢
  omega

/-- Witness of C5 at `src_size = 32`. -/
theorem EncryptGetSize_aligned_witness :
    32 % 16 = 0 ∧ 32 ≤ 2 ^ 32 - 21 ∧ EncryptGetSize 1 0 [] 32 = 32 + 16 :=
  ⟨by norm_num, by norm_num, EncryptGetSize_aligned 32 (by norm_num) (by norm_num) 1 0 []⟩

/-! ## Progressive start (claim C6) -/

/-- C6: `ProgressiveEncryptStart` returns true exactly when
`raw_size > MIN_RAW_SIZE`; when it returns true the started flag is set (and no
other member changes), when it returns false the handler is unchanged. -/
theorem ProgressiveEncryptStart_spec (MIN_RAW_SIZE : Nat) (self : PDFCryptoHandlerImpl)
    (objnum version raw_size : Nat) :
    ((self.ProgressiveEncryptStart MIN_RAW_SIZE objnum version raw_size).1 = true
        ↔ raw_size > MIN_RAW_SIZE)
      ∧ ((self.ProgressiveEncryptStart MIN_RAW_SIZE objnum version raw_size).1 = true →
          (self.ProgressiveEncryptStart MIN_RAW_SIZE objnum version raw_size).2
            = { self with m_bProgressiveStart := true })
      ∧ ((self.ProgressiveEncryptStart MIN_RAW_SIZE objnum version raw_size).1 = false →
          (self.ProgressiveEncryptStart MIN_RAW_SIZE objnum version raw_size).2 = self) := by
  unfold PDFCryptoHandlerImpl.ProgressiveEncryptStart
  by_cases hgt : raw_size > MIN_RAW_SIZE <;> simp [hgt]

/-! ## `IsProtected` (claim C10) -/

theorem wstringCompare_eq_zero (a b : List Nat) : wstringCompare a b = 0 ↔ a = b := by
  induction a generalizing b with
  | nil => cases b <;> simp [wstringCompare]
  | cons x xs ih =>
    cases b with
    | nil => simp [wstringCompare]
    | cons y ys =>
      simp only [wstringCompare, List.cons.injEq]
      by_cases h1 : x < y
      · simp [h1]; omega
      · by_cases h2 : y < x
        · simp [h1, h2]; omega
        · have : x = y := by omega
          simp [h1, h2, this, ih]

/-- C10: `IsProtected` is true exactly when the wrapper type is IRMv1 or
IRMv2, the payload size is positive and the cryptographic filter equals
`PDF_PROTECTOR_WRAPPER_SUBTYPE`. -/
theorem IsProtected_iff (k : WrapperConsts) (doc : WrapperDoc) :
    IsProtected k doc = true ↔
      (doc.wrapperType = k.PDFWRAPPERDOC_TYPE_IRMV1
          ∨ doc.wrapperType = k.PDFWRAPPERDOC_TYPE_IRMV2)
        ∧ doc.payloadSize > 0
        ∧ doc.wsGraphicFilter = k.PDF_PROTECTOR_WRAPPER_SUBTYPE := by
  unfold IsProtected
  simp only [ne_eq, wstringCompare_eq_zero, Nat.le_zero_eq]
  split_ifs with h
  · simp only [Bool.false_eq_true, false_iff]
    rintro ⟨h1, h2, h3⟩
    rcases h with h | h | h
    · rcases h1 with h1 | h1
      · exact h.1 h1
      · exact h.2 h1
    · omega
    · exact h h3
  · simp only [true_iff]
    push_neg at h
    refine ⟨?_, by omega, h.2.2⟩
    by_cases h1 : doc.wrapperType = k.PDFWRAPPERDOC_TYPE_IRMV1
    · exact Or.inl h1
    · exact Or.inr (h.1 h1)

/-! ## Buffers and the heap -/

theorem memRead_length (mem : Nat → Nat) (off len : Nat) : (memRead mem off len).length = len := by
  simp [memRead]

theorem memRead_add (mem : Nat → Nat) (off a b : Nat) :
    memRead mem off (a + b) = memRead mem off a ++ memRead mem (off + a) b := by
  simp only [memRead, List.range_add, List.map_append, List.map_map]
  congr 1
  apply List.map_congr_left
  intro j _
  simp [Nat.add_assoc]

theorem memRead_memOf (bytes : List Nat) (beyond : Nat → Nat) (off len : Nat)
    (hle : off + len ≤ bytes.length) :
    memRead (memOf bytes beyond) off len = (bytes.drop off).take len := by
  apply List.ext_getElem
  · simp [memRead]; omega
  · intro i h1 h2
    simp only [memRead, List.length_map, List.length_range] at h1
    have hlt : off + i < bytes.length := by omega
    simp [memRead, memOf, hlt, List.getD_eq_getElem?_getD, List.getElem?_eq_getElem hlt]

theorem memRead_take (mem : Nat → Nat) (off a b : Nat) (hab : a ≤ b) :
    (memRead mem off b).take a = memRead mem off a := by
  obtain ⟨c, rfl⟩ := Nat.exists_eq_add_of_le hab
  rw [memRead_add, List.take_left' (memRead_length _ _ _)]

theorem memRead_drop (mem : Nat → Nat) (off a b : Nat) :
    (memRead mem off (a + b)).drop a = memRead mem (off + a) b := by
  rw [memRead_add, List.drop_left' (memRead_length _ _ _)]

theorem Heap.read_store_same (h : Heap) (s : Nat) (bytes : List Nat) :
    (h.store s bytes).read s = bytes := by
  simp [Heap.read, Heap.store]

theorem Heap.read_store_ne (h : Heap) (s t : Nat) (bytes : List Nat) (hne : t ≠ s) :
    (h.store s bytes).read t = h.read t := by
  simp [Heap.read, Heap.store, Function.update_noteq hne]

theorem Heap.store_store (h : Heap) (s : Nat) (a b : List Nat) :
    (h.store s a).store s b = h.store s b := by
  simp [Heap.store]

theorem Heap.store_read (h : Heap) (s : Nat) : h.store s (h.read s) = h := by
  cases h
  simp [Heap.store, Heap.read]

theorem Heap.read_alloc_new (h : Heap) : h.alloc.2.read h.alloc.1 = [] := by
  simp [Heap.alloc, Heap.read]

theorem Heap.read_alloc_ne (h : Heap) (t : Nat) (hne : t ≠ h.next) :
    h.alloc.2.read t = h.read t := by
  simp [Heap.alloc, Heap.read, Function.update_noteq hne]

/-! ## Block-wise encryption and decryption -/

namespace BlockBasedProtectedStream

theorem writeBlocks_nil (p : CryptoProvider) (B n k : Nat) : writeBlocks p B n k [] = [] := by
  cases n <;> simp [writeBlocks]

theorem readBlocks_nil (p : CryptoProvider) (B n k : Nat) : readBlocks p B n k [] = [] := by
  cases n <;> simp [readBlocks]

theorem writeBlocks_fuel (p : CryptoProvider) (B : Nat) (hB : 0 < B) (n m k : Nat) (d : List Nat)
    (hn : d.length ≤ n) (hm : d.length ≤ m) :
    writeBlocks p B n k d = writeBlocks p B m k d := by
  induction n generalizing m k d with
  | zero =>
    have : d = [] := List.length_eq_zero.mp (by omega)
    subst this
    simp [writeBlocks_nil]
  | succ n ih =>
    by_cases hd : d = []
    · subst hd; simp [writeBlocks_nil]
    · have hpos : 0 < d.length := List.length_pos.mpr hd
      obtain ⟨m', rfl⟩ : ∃ m', m = m' + 1 := ⟨m - 1, by omega⟩
      simp only [writeBlocks, hd, if_false]
      rw [ih m' (k + 1) (d.drop B) (by simp; omega) (by simp; omega)]

theorem writeBlocks_append (p : CryptoProvider) (B : Nat) (hB : 0 < B) (n1 n n2 k : Nat)
    (x y : List Nat) (hdvd : B ∣ x.length) (hn : x.length + y.length ≤ n)
    (hn1 : x.length ≤ n1) (hn2 : y.length ≤ n2) :
    writeBlocks p B n k (x ++ y)
      = writeBlocks p B n1 k x ++ writeBlocks p B n2 (k + x.length / B) y := by
  induction n1 generalizing n k x with
  | zero =>
    have : x = [] := List.length_eq_zero.mp (by omega)
    subst this
    simp only [List.nil_append, writeBlocks_nil, List.length_nil, Nat.zero_div, Nat.add_zero]
    exact writeBlocks_fuel p B hB n n2 k y (by simpa using hn) hn2
  | succ n1 ih =>
    by_cases hx : x = []
    · subst hx
      simp only [List.nil_append, writeBlocks_nil, List.length_nil, Nat.zero_div, Nat.add_zero]
      exact writeBlocks_fuel p B hB n n2 k y (by simpa using hn) hn2
    · have hpos : 0 < x.length := List.length_pos.mpr hx
      have hBx : B ≤ x.length := Nat.le_of_dvd hpos hdvd
      obtain ⟨n', rfl⟩ : ∃ n', n = n' + 1 := ⟨n - 1, by omega⟩
      have hxy : x ++ y ≠ [] := by simp [hx]
      simp only [writeBlocks, hx, hxy, if_false]
      have htake : (x ++ y).take B = x.take B := by
        rw [List.take_append_of_le_length hBx]
      have hdrop : (x ++ y).drop B = x.drop B ++ y := by
        rw [List.drop_append_of_le_length hBx]
      rw [htake, hdrop, List.append_assoc]
      congr 1
      have hdvd' : B ∣ (x.drop B).length := by
        rw [List.length_drop]; exact (Nat.dvd_sub' hdvd (dvd_refl B))
      have hl : (x.drop B).length = x.length - B := List.length_drop B x
      have hn1' : x.length ≤ n1 + 1 := hn1
      rw [ih n' (k + 1) (x.drop B) hdvd' (by omega) (by omega)]
      congr 2
      rw [List.length_drop]
      obtain ⟨q, hq⟩ := hdvd
      rw [hq]
      have hq1 : 1 ≤ q := by
        rcases q with _ | q
        · rw [Nat.mul_zero] at hq; omega
        · omega
      rw [Nat.mul_div_cancel_left q hB]
      have : B * q - B = B * (q - 1) := by rw [Nat.mul_sub, Nat.mul_one]
      rw [this, Nat.mul_div_cancel_left _ hB]
      omega

end BlockBasedProtectedStream

namespace BlockBasedProtectedStream

theorem take_block_ok (B a : Nat) (d : List Nat) (hd : d ≠ []) (hB : 0 < B) (haB : a ∣ B)
    (had : a ∣ d.length) :
    d.take B ≠ [] ∧ (d.take B).length ≤ B ∧ (d.take B).length % a = 0
      ∧ a ∣ (d.drop B).length := by
  have hpos : 0 < d.length := List.length_pos.mpr hd
  refine ⟨?_, ?_, ?_, ?_⟩
  · intro h
    have := congrArg List.length h
    rw [List.length_take, List.length_nil] at this
    omega
  · rw [List.length_take]; omega
  · rw [List.length_take]
    apply Nat.mod_eq_zero_of_dvd
    rcases Nat.le_total B d.length with h | h
    · rw [Nat.min_eq_left h]; exact haB
    · rw [Nat.min_eq_right h]; exact had
  · rw [List.length_drop]
    exact Nat.dvd_sub' had haB

theorem writeBlocks_length_full (p : CryptoProvider) (B a : Nat) (hc : p.Inverts B a)
    (hB : 0 < B) (haB : a ∣ B) (n k : Nat) (d : List Nat) (hdvd : B ∣ d.length)
    (hn : d.length ≤ n) : (writeBlocks p B n k d).length = d.length := by
  induction n generalizing k d with
  | zero =>
    have : d = [] := List.length_eq_zero.mp (by omega)
    subst this; simp [writeBlocks_nil]
  | succ n ih =>
    by_cases hd : d = []
    · subst hd; simp [writeBlocks_nil]
    · have hpos : 0 < d.length := List.length_pos.mpr hd
      have hBd : B ≤ d.length := Nat.le_of_dvd hpos hdvd
      obtain ⟨h1, h2, h3, _⟩ := take_block_ok B a d hd hB haB (Dvd.dvd.trans haB hdvd)
      obtain ⟨_, h5, h6⟩ := hc k (d.take B) h1 h2 h3
      have hl : (d.drop B).length = d.length - B := List.length_drop B d
      have ht : (d.take B).length = B := by rw [List.length_take]; omega
      have hdvd' : B ∣ (d.drop B).length := by rw [hl]; exact Nat.dvd_sub' hdvd (dvd_refl B)
      simp only [writeBlocks, hd, if_false, List.length_append]
      rw [ih (k + 1) (d.drop B) hdvd' (by omega)]
      omega

theorem writeBlocks_length_ge (p : CryptoProvider) (B a : Nat) (hc : p.Inverts B a)
    (hB : 0 < B) (haB : a ∣ B) (n k : Nat) (d : List Nat) (had : a ∣ d.length)
    (hn : d.length ≤ n) : d.length ≤ (writeBlocks p B n k d).length := by
  induction n generalizing k d with
  | zero => omega
  | succ n ih =>
    by_cases hd : d = []
    · subst hd; simp
    · have hpos : 0 < d.length := List.length_pos.mpr hd
      obtain ⟨h1, h2, h3, h4⟩ := take_block_ok B a d hd hB haB had
      obtain ⟨_, h5, h6⟩ := hc k (d.take B) h1 h2 h3
      have hl : (d.drop B).length = d.length - B := List.length_drop B d
      have ht : (d.take B).length = min B d.length := List.length_take B d
      have := ih (k + 1) (d.drop B) h4 (by omega)
      simp only [writeBlocks, hd, if_false, List.length_append]
      omega

theorem readBlocks_writeBlocks (p : CryptoProvider) (B a : Nat) (hc : p.Inverts B a)
    (hB : 0 < B) (haB : a ∣ B) (cnt m k : Nat) (d : List Nat) (had : a ∣ d.length)
    (hm : d.length ≤ m) :
    readBlocks p B cnt k (writeBlocks p B m k d) = d.take (cnt * B) := by
  induction cnt generalizing m k d with
  | zero => simp [readBlocks]
  | succ cnt ih =>
    by_cases hd : d = []
    · subst hd; simp [writeBlocks_nil, readBlocks_nil]
    · have hpos : 0 < d.length := List.length_pos.mpr hd
      obtain ⟨m', rfl⟩ : ∃ m', m = m' + 1 := ⟨m - 1, by omega⟩
      obtain ⟨h1, h2, h3, h4⟩ := take_block_ok B a d hd hB haB had
      obtain ⟨hdec, h5, h6⟩ := hc k (d.take B) h1 h2 h3
      have hl : (d.drop B).length = d.length - B := List.length_drop B d
      have ht : (d.take B).length = min B d.length := List.length_take B d
      have hne : p.Encrypt k (d.take B) ++ writeBlocks p B m' (k + 1) (d.drop B) ≠ [] := by
        intro h
        have := congrArg List.length h
        simp only [List.length_append, List.length_nil] at this
        omega
      simp only [writeBlocks, hd, if_false, readBlocks, hne]
      rcases Nat.lt_or_ge d.length B with hlt | hge
      · have hdrop : d.drop B = [] := List.drop_eq_nil_of_le (by omega)
        have htake : d.take B = d := List.take_of_length_le (by omega)
        rw [hdrop, writeBlocks_nil, List.append_nil, htake]
        rw [htake] at hdec h6
        rw [List.take_of_length_le h6, hdec, List.drop_eq_nil_of_le h6, readBlocks_nil,
          List.append_nil, List.take_of_length_le]
        rw [Nat.succ_mul]; omega
      · have hlen : (p.Encrypt k (d.take B)).length = B := by omega
        rw [List.take_left' hlen, List.drop_left' hlen, hdec, ih m' (k + 1) (d.drop B) h4 (by omega)]
        rw [Nat.succ_mul, Nat.add_comm (cnt * B) B, List.take_add, List.take_drop]

end BlockBasedProtectedStream

/-! ## The write loop of `EncryptStream` -/

theorem writeAt_nil_zero (buf : List Nat) : writeAt [] 0 buf = buf := by
  simp [writeAt]

theorem BlockBasedProtectedStream.WriteAsync_append (s : BlockBasedProtectedStream) (h : Heap)
    (buf : List Nat) (r : Nat) (hstart : s.contentStart = 0) (hB : 0 < s.blockSize)
    (hr : s.blockSize ∣ r) (hlen : (h.read s.backing).length = r) :
    s.WriteAsync h buf r
      = (buf.length, h.store s.backing (h.read s.backing
          ++ writeBlocks s.cryptoProvider s.blockSize buf.length (r / s.blockSize) buf)) := by
  obtain ⟨q, hq⟩ := hr
  have hfirst : r / s.blockSize * s.blockSize = r := by
    rw [hq, Nat.mul_div_cancel_left q hB, Nat.mul_comm]
  have hmod : r % s.blockSize = 0 := by rw [hq]; exact Nat.mul_mod_right _ _
  have hdrop : (h.read s.backing).drop r = [] := List.drop_eq_nil_of_le (by omega)
  have hdrop2 : (h.read s.backing).drop
      ((r / s.blockSize + (0 + buf.length + s.blockSize - 1) / s.blockSize) * s.blockSize)
      = [] := by
    apply List.drop_eq_nil_of_le
    rw [Nat.add_mul, hfirst]
    omega
  simp only [WriteAsync, hstart, List.drop_zero, List.take_zero, List.nil_append, hfirst, hmod,
    hdrop, readBlocks_nil, writeAt_nil_zero, hdrop2, List.append_nil]
  rw [List.take_of_length_le (by omega)]

theorem EncryptStream_loop_ok (mem : Nat → Nat) (s : BlockBasedProtectedStream) (a T : Nat)
    (hstart : s.contentStart = 0) (hB : 0 < s.blockSize) (hB4 : s.blockSize ∣ 4096)
    (haB : a ∣ s.blockSize) (hc : s.cryptoProvider.Inverts s.blockSize a) (hT : T < 2 ^ 64)
    (fuel r : Nat) (h : Heap) (hr : 4096 ∣ r ∨ r = T) (hrT : r ≤ T)
    (hfuel : T - r ≤ fuel * 4096)
    (hcell : h.read s.backing = BlockBasedProtectedStream.writeBlocks s.cryptoProvider
      s.blockSize r 0 (memRead mem 0 r)) :
    PDFProtector.EncryptStream.loop mem s T fuel r r h
      = .ok (h.store s.backing (BlockBasedProtectedStream.writeBlocks s.cryptoProvider
          s.blockSize T 0 (memRead mem 0 T))) := by
  induction fuel generalizing r h with
  | zero =>
    have hrT' : r = T := by omega
    subst hrT'
    have h0 : u64 (r + 2 ^ 64 - r) = 0 := by
      unfold u64; rw [Nat.add_sub_cancel_left]; exact Nat.mod_self _
    simp only [PDFProtector.EncryptStream.loop, h0, gt_iff_lt, lt_self_iff_false, if_false]
    rw [← hcell, Heap.store_read]
  | succ fuel ih =>
    rcases Nat.eq_or_lt_of_le hrT with hEq | hlt
    · subst hEq
      have h0 : u64 (r + 2 ^ 64 - r) = 0 := by
        unfold u64; rw [Nat.add_sub_cancel_left]; exact Nat.mod_self _
      simp only [PDFProtector.EncryptStream.loop, h0, gt_iff_lt, lt_self_iff_false, if_false]
      rw [← hcell, Heap.store_read]
    · have hr4 : 4096 ∣ r := by
        rcases hr with h1 | h1
        · exact h1
        · omega
      have hrem : u64 (T + 2 ^ 64 - r) = T - r := by
        unfold u64
        have : T + 2 ^ 64 - r = (T - r) + 2 ^ 64 := by omega
        rw [this, Nat.add_mod_right, Nat.mod_eq_of_lt (by omega)]
      have hBr : s.blockSize ∣ r := Dvd.dvd.trans hB4 hr4
      have hlenr : (memRead mem 0 r).length = r := memRead_length _ _ _
      have hcelllen : (h.read s.backing).length = r := by
        rw [hcell, BlockBasedProtectedStream.writeBlocks_length_full _ _ a hc hB haB _ _ _
          (by rw [hlenr]; exact hBr) (by rw [hlenr]), hlenr]
      have hpos : 0 < T - r := by omega
      have hw := BlockBasedProtectedStream.WriteAsync_append s h
        (memRead mem r (min 4096 (T - r))) r hstart hB hBr hcelllen
      rw [memRead_length] at hw
      have hnext : u64 (r + min 4096 (T - r)) = r + min 4096 (T - r) := by
        unfold u64; exact Nat.mod_eq_of_lt (by omega)
      have hcell' : h.read s.backing
          ++ BlockBasedProtectedStream.writeBlocks s.cryptoProvider s.blockSize
              (min 4096 (T - r)) (r / s.blockSize)
              (memRead mem r (min 4096 (T - r)))
          = BlockBasedProtectedStream.writeBlocks s.cryptoProvider s.blockSize
              (r + min 4096 (T - r)) 0 (memRead mem 0 (r + min 4096 (T - r))) := by
        rw [hcell, memRead_add, Nat.zero_add]
        have := BlockBasedProtectedStream.writeBlocks_append s.cryptoProvider s.blockSize hB
          r (r + min 4096 (T - r)) (min 4096 (T - r)) 0
          (memRead mem 0 r) (memRead mem r (min 4096 (T - r)))
          (by rw [hlenr]; exact hBr) (by simp [memRead_length]) (by rw [hlenr])
          (by rw [memRead_length])
        rw [this, hlenr, Nat.zero_add]
      simp only [PDFProtector.EncryptStream.loop, hrem, gt_iff_lt, hpos, if_true, hw,
        memRead_length, ne_eq, not_true_eq_false, if_false, hnext]
      rw [ih (r + min 4096 (T - r)) _ ?_ (by omega) ?_ ?_]
      · rw [Heap.store_store]
      · rcases Nat.lt_or_ge (T - r) 4096 with h1 | h1
        · right; rw [Nat.min_eq_right (by omega)]; omega
        · left; rw [Nat.min_eq_left h1]; exact Nat.dvd_add hr4 (dvd_refl _)
      · rcases Nat.lt_or_ge (T - r) 4096 with h1 | h1
        · rw [Nat.min_eq_right (by omega)]; omega
        · rw [Nat.min_eq_left h1]; rw [Nat.succ_mul] at hfuel; omega
      · rw [Heap.read_store_same, hcell']

/-! ## Reading back what was written -/

theorem BlockBasedProtectedStream.writeBlocks_drop (p : CryptoProvider) (B a : Nat)
    (hc : p.Inverts B a) (hB : 0 < B) (haB : a ∣ B) (D : List Nat) (r : Nat) (hBr : B ∣ r)
    (hr : r ≤ D.length) :
    (writeBlocks p B D.length 0 D).drop r = writeBlocks p B D.length (r / B) (D.drop r) := by
  have hlen : (D.take r).length = r := by rw [List.length_take]; omega
  have happ := writeBlocks_append p B hB r D.length D.length 0 (D.take r) (D.drop r)
    (by rw [hlen]; exact hBr) (by rw [← List.length_append, List.take_append_drop])
    (by rw [hlen]) (by rw [List.length_drop]; omega)
  rw [List.take_append_drop, hlen, Nat.zero_add] at happ
  rw [happ]
  apply List.drop_left'
  rw [writeBlocks_length_full p B a hc hB haB _ _ _ (by rw [hlen]; exact hBr) (by rw [hlen]), hlen]

theorem BlockBasedProtectedStream.ReadAsync_written (s : BlockBasedProtectedStream) (a : Nat)
    (hstart : s.contentStart = 0) (hB : 0 < s.blockSize) (haB : a ∣ s.blockSize)
    (hc : s.cryptoProvider.Inverts s.blockSize a) (D : List Nat) (haD : a ∣ D.length)
    (h : Heap) (r t : Nat) (hBr : s.blockSize ∣ r) (hr : r ≤ D.length)
    (hcell : (h.read s.backing).drop r
      = (writeBlocks s.cryptoProvider s.blockSize D.length 0 D).drop r) :
    s.ReadAsync h t r = (D.drop r).take t := by
  obtain ⟨q, hq⟩ := hBr
  have hfirst : r / s.blockSize * s.blockSize = r := by
    rw [hq, Nat.mul_div_cancel_left q hB, Nat.mul_comm]
  have hmod : r % s.blockSize = 0 := by rw [hq]; exact Nat.mul_mod_right _ _
  have hdl : (D.drop r).length = D.length - r := List.length_drop r D
  have had : a ∣ (D.drop r).length := by
    rw [hdl]
    exact Nat.dvd_sub' haD (Dvd.dvd.trans haB ⟨q, hq⟩)
  simp only [ReadAsync, hstart, List.drop_zero, hfirst, hmod, hcell, Nat.zero_add]
  rw [writeBlocks_drop _ _ a hc hB haB D r ⟨q, hq⟩ hr,
    readBlocks_writeBlocks _ _ a hc hB haB _ _ _ _ had (by rw [hdl]; omega),
    List.take_take]
  congr 1
  apply Nat.min_eq_left
  have h1 : t + s.blockSize - 1 < ((t + s.blockSize - 1) / s.blockSize + 1) * s.blockSize := by
    rw [Nat.mul_comm]
    exact Nat.lt_mul_div_succ _ hB
  rw [Nat.add_mul, Nat.one_mul] at h1
  omega

theorem BlockBasedProtectedStream.Size_written (s : BlockBasedProtectedStream) (a : Nat)
    (hstart : s.contentStart = 0) (hB : 0 < s.blockSize) (haB : a ∣ s.blockSize)
    (hc : s.cryptoProvider.Inverts s.blockSize a) (D : List Nat) (haD : a ∣ D.length)
    (h : Heap)
    (hcell : h.read s.backing = writeBlocks s.cryptoProvider s.blockSize D.length 0 D) :
    s.Size h = D.length := by
  have hge := writeBlocks_length_ge _ _ a hc hB haB D.length 0 D haD (le_refl _)
  simp only [Size, hstart, List.drop_zero, hcell]
  rw [readBlocks_writeBlocks _ _ a hc hB haB _ _ _ _ haD (le_refl _), List.take_of_length_le]
  calc D.length ≤ (writeBlocks s.cryptoProvider s.blockSize D.length 0 D).length := hge
    _ = (writeBlocks s.cryptoProvider s.blockSize D.length 0 D).length * 1 := (Nat.mul_one _).symm
    _ ≤ _ := Nat.mul_le_mul_left _ hB

/-! ## The read loop of `DecryptStream`, output written over the ciphertext -/

theorem writeAt_after (pre suf W : List Nat) (r : Nat) (hr : pre.length = r) :
    writeAt (pre ++ suf) r W = pre ++ W ++ suf.drop W.length := by
  subst hr
  simp only [writeAt, List.take_left', List.length_append]
  have : pre.length - (pre.length + suf.length) = 0 := by omega
  rw [this, List.drop_append]
  simp

theorem DecryptStream_loop_inplace (s : BlockBasedProtectedStream) (a : Nat)
    (hstart : s.contentStart = 0) (hB : 0 < s.blockSize) (hB4 : s.blockSize ∣ 4096)
    (haB : a ∣ s.blockSize) (hc : s.cryptoProvider.Inverts s.blockSize a)
    (D C : List Nat) (haD : a ∣ D.length)
    (hC : C = BlockBasedProtectedStream.writeBlocks s.cryptoProvider s.blockSize D.length 0 D)
    (hC64 : C.length < 2 ^ 64)
    (fuel r : Nat) (buffer : List Nat) (h : Heap) (hrT : r ≤ D.length)
    (hfuel : D.length - r ≤ fuel * 4096)
    (htake : (h.read s.backing).take r = D.take r)
    (hcell : r < D.length → 4096 ∣ r ∧ h.read s.backing = D.take r ++ C.drop r) :
    ∃ h', PDFProtector.DecryptStream.loop s.backing s C.length D.length fuel r r buffer h
        = .ok h' ∧ (h'.read s.backing).take D.length = D := by
  have hCD : D.length ≤ C.length := by
    rw [hC]
    exact BlockBasedProtectedStream.writeBlocks_length_ge _ _ a hc hB haB _ _ _ haD (le_refl _)
  have hdone : ∀ (fuel r : Nat) (buffer : List Nat) (h : Heap), r = D.length →
      (h.read s.backing).take r = D.take r →
      ∃ h', PDFProtector.DecryptStream.loop s.backing s C.length D.length fuel r r buffer h
        = .ok h' ∧ (h'.read s.backing).take D.length = D := by
    intro fuel r buffer h hEq htake
    have h0 : u64 (D.length + 2 ^ 64 - r) = 0 := by
      rw [hEq]; unfold u64; rw [Nat.add_sub_cancel_left]; exact Nat.mod_self _
    refine ⟨h, ?_, ?_⟩
    · cases fuel <;>
        simp only [PDFProtector.DecryptStream.loop, h0, gt_iff_lt, lt_self_iff_false, if_false]
    · rw [hEq] at htake; rw [htake, List.take_length]
  induction fuel generalizing r buffer h with
  | zero => exact hdone 0 r buffer h (by omega) htake
  | succ fuel ih =>
    rcases Nat.eq_or_lt_of_le hrT with hEq | hlt
    · exact hdone (fuel + 1) r buffer h hEq htake
    · obtain ⟨hr4, hX⟩ := hcell hlt
      have hrem : u64 (D.length + 2 ^ 64 - r) = D.length - r := by
        unfold u64
        have : D.length + 2 ^ 64 - r = (D.length - r) + 2 ^ 64 := by omega
        rw [this, Nat.add_mod_right, Nat.mod_eq_of_lt (by omega)]
      have hrem2 : u64 (C.length + 2 ^ 64 - r) = C.length - r := by
        unfold u64
        have : C.length + 2 ^ 64 - r = (C.length - r) + 2 ^ 64 := by omega
        rw [this, Nat.add_mod_right, Nat.mod_eq_of_lt (by omega)]
      have hpos : 0 < D.length - r := by omega
      have hpre : (D.take r).length = r := by rw [List.length_take]; omega
      have hsuf : (h.read s.backing).drop r = C.drop r := by
        rw [hX]; exact List.drop_left' hpre
      have hdata : s.ReadAsync h (min 4096 (D.length - r)) r
          = (D.drop r).take (min 4096 (D.length - r)) :=
        BlockBasedProtectedStream.ReadAsync_written s a hstart hB haB hc D haD h r _
          (Dvd.dvd.trans hB4 hr4) hrT (by rw [hsuf, hC])
      have hdlen : ((D.drop r).take (min 4096 (D.length - r))).length
          = min 4096 (D.length - r) := by
        rw [List.length_take, List.length_drop]; omega
      have hnext : u64 (r + min 4096 (D.length - r)) = r + min 4096 (D.length - r) := by
        unfold u64; exact Nat.mod_eq_of_lt (by omega)
      have hne : min 4096 (D.length - r) ≠ 0 := by omega
      simp only [PDFProtector.DecryptStream.loop, hrem, hrem2, gt_iff_lt, hpos, if_true, hdata,
        hdlen, hne, if_false, hnext]
      have hW : ((D.drop r).take (min 4096 (D.length - r))
            ++ buffer.drop (min 4096 (D.length - r))).take (min 4096 (C.length - r))
          = (D.drop r).take (min 4096 (D.length - r))
            ++ (buffer.drop (min 4096 (D.length - r))).take
                (min 4096 (C.length - r) - min 4096 (D.length - r)) := by
        rw [List.take_append_eq_append_take, hdlen, List.take_of_length_le (by rw [hdlen]; omega)]
      have hD2 : D.take r ++ (D.drop r).take (min 4096 (D.length - r))
          = D.take (r + min 4096 (D.length - r)) := (List.take_add D r _).symm
      apply ih
      · omega
      · rw [Nat.succ_mul] at hfuel; omega
      · rw [Heap.read_store_same, hX, writeAt_after _ _ _ _ hpre, hW, ← List.append_assoc,
          hD2, List.append_assoc, List.take_left']
        rw [List.length_take]; omega
      · intro hlt2
        have h4 : min 4096 (D.length - r) = 4096 := by omega
        have h5 : min 4096 (C.length - r) = 4096 := by omega
        refine ⟨?_, ?_⟩
        · rw [h4]; exact Nat.dvd_add hr4 (dvd_refl _)
        · rw [Heap.read_store_same, hX, writeAt_after _ _ _ _ hpre, hW, ← hD2, h4, h5]
          have h6 : ((D.drop r).take 4096).length = 4096 := by rw [← h4]; exact hdlen
          simp only [Nat.sub_self, List.take_zero, List.append_nil, h6, List.drop_drop,
            List.append_assoc]

/-! ## Policies -/

theorem and_not_mask16 (x : Nat) (hx : x < 2 ^ 64) :
    x &&& ((2 ^ 4 - 1) ^^^ (2 ^ 64 - 1)) = 2 ^ 4 * (x >>> 4) := by
  apply Nat.eq_of_testBit_eq
  intro i
  rw [Nat.testBit_and, Nat.testBit_xor, Nat.testBit_two_pow_sub_one,
    Nat.testBit_two_pow_sub_one, Nat.testBit_mul_pow_two, Nat.testBit_shiftRight]
  by_cases h4 : i < 4
  · have h64 : i < 64 := by omega
    have h4' : ¬ (i ≥ 4) := by omega
    simp [h4, h64, h4']
  · have hi : 4 + (i - 4) = i := by omega
    by_cases h64 : i < 64
    · have h4' : i ≥ 4 := by omega
      simp [h4, h64, hi, h4']
    · have hlt : x < 2 ^ i := lt_of_lt_of_le hx (Nat.pow_le_pow_right (by norm_num) (by omega))
      simp [h4, h64, hi, Nat.testBit_lt_two_pow hlt]

theorem roundToBlock_16 (c : Nat) (hc : c < 2 ^ 32) : roundToBlock c 16 = 16 * ((c + 15) / 16) := by
  have h1 : u64 (16 + 2 ^ 64 - 1) = 2 ^ 4 - 1 := by norm_num [u64]
  have h2 : u64 (c + 16 + 2 ^ 64 - 1) = c + 15 := by
    unfold u64
    have : c + 16 + 2 ^ 64 - 1 = (c + 15) + 2 ^ 64 := by omega
    rw [this, Nat.add_mod_right, Nat.mod_eq_of_lt (by omega)]
  unfold roundToBlock
  simp only [h1, h2]
  rw [and_not_mask16 _ (by omega), Nat.shiftRight_eq_div_pow]
  norm_num

theorem UserPolicy.streamBlockSize_pos (u : UserPolicy) : 0 < u.streamBlockSize := by
  unfold UserPolicy.streamBlockSize; split <;> norm_num

theorem UserPolicy.streamBlockSize_dvd (u : UserPolicy) : u.streamBlockSize ∣ 4096 := by
  unfold UserPolicy.streamBlockSize; split <;> norm_num

theorem UserPolicy.align_dvd (u : UserPolicy) : u.align ∣ u.streamBlockSize := by
  unfold UserPolicy.streamBlockSize UserPolicy.align; split <;> split <;> norm_num

theorem UserPolicy.Valid.inverts {u : UserPolicy} (hv : u.Valid) :
    u.cryptoProvider.Inverts u.streamBlockSize u.align := by
  intro k d hd hlen hmod
  apply hv.2 k d hd hlen
  intro hecb
  simpa [UserPolicy.align, hecb] using hmod

theorem UserPolicy.totalSize_bounds (u : UserPolicy) (hv : u.Valid) (c : Nat) (hc : c < 2 ^ 32) :
    c ≤ u.totalSize c ∧ u.totalSize c < c + 16 ∧ u.align ∣ u.totalSize c := by
  unfold UserPolicy.totalSize UserPolicy.align
  by_cases hecb : u.DoesUseDeprecatedAlgorithms = true
  · simp only [hecb, if_true, hv.1 hecb, roundToBlock_16 c hc]
    refine ⟨by omega, by omega, Dvd.intro _ rfl⟩
  · simp [hecb]

/-! ## One-shot encryption -/

theorem EncryptStream_fresh (u : UserPolicy) (hv : u.Valid) (o csize : Nat) (h : Heap)
    (mem : Nat → Nat) (c : Nat) (hc0 : 0 < c) (hc : c < 2 ^ 32) (bFinish : Bool)
    (hempty : h.read o = []) :
    PDFProtector.EncryptStream
        { m_userPolicy := some u, m_blockSize := u.cryptoProvider.GetBlockSize } h (some mem) c
        (some (u.stream o csize)) bFinish
      = .ok (h.store o (u.cipherText (memRead mem 0 (u.totalSize c)))) := by
  have hb := u.totalSize_bounds hv c hc
  have hu : u32 c = c := Nat.mod_eq_of_lt hc
  have hne : ¬ (0 = c) := by omega
  have hloop := EncryptStream_loop_ok mem (u.stream o csize) u.align (u.totalSize c) rfl
    u.streamBlockSize_pos u.streamBlockSize_dvd u.align_dvd hv.inverts
    (by have : (2:Nat) ^ 32 + 16 < 2 ^ 64 := by norm_num
        omega)
    (u.totalSize c) 0 h (Or.inl (dvd_zero _)) (Nat.zero_le _) (by omega)
    (by simp [UserPolicy.stream, hempty, BlockBasedProtectedStream.writeBlocks])
  unfold UserPolicy.cipherText
  rw [memRead_length]
  unfold PDFProtector.EncryptStream
  show (if 0 = u32 c then _ else _) = _
  rw [hu, if_neg hne]
  show (match PDFProtector.EncryptStream.loop mem (u.stream o csize) (u.totalSize c)
          (u.totalSize c) 0 0 h with
        | Except.error e => Except.error e
        | Except.ok h' =>
          Except.ok (if bFinish = true then (u.stream o csize).Flush h' else h')) = _
  rw [hloop]
  cases bFinish <;> rfl

theorem contentAddPre_length (src : Nat → Nat) (n : Nat) :
    (PDFCryptoHandlerImpl.contentAddPre src n).length = n + 4 := by
  simp [PDFCryptoHandlerImpl.contentAddPre, memRead_length]

theorem CreateProtectedStream_some (u : UserPolicy) (blk o csize : Nat) :
    PDFProtector.CreateProtectedStream { m_userPolicy := some u, m_blockSize := blk } o csize
      = .ok (u.stream o csize,
          { m_userPolicy := some u, m_blockSize := u.cryptoProvider.GetBlockSize }) := by
  simp [PDFProtector.CreateProtectedStream, UserPolicy.stream, UserPolicy.streamBlockSize]

theorem EncryptContent_eq (self : PDFCryptoHandlerImpl) (u : UserPolicy) (hv : u.Valid)
    (blk : Nat) (hself : self.m_pPDFProtector = some { m_userPolicy := some u, m_blockSize := blk })
    (h : Heap) (objnum version : Nat) (src : Nat → Nat) (n : Nat) (hn : n < 2 ^ 32 - 4)
    (beyond : Nat → Nat) :
    self.EncryptContent h objnum version src n beyond
      = .ok (true,
          u.cipherText (memRead (memOf (PDFCryptoHandlerImpl.contentAddPre src n) beyond) 0 (u.totalSize (n + 4))),
          u32 (u.cipherText
            (memRead (memOf (PDFCryptoHandlerImpl.contentAddPre src n) beyond) 0 (u.totalSize (n + 4)))).length,
          { self with
            m_pPDFProtector := some (PDFProtector.mk (some u) u.cryptoProvider.GetBlockSize) },
          h.alloc.2.store h.next
            (u.cipherText
              (memRead (memOf (PDFCryptoHandlerImpl.contentAddPre src n) beyond) 0 (u.totalSize (n + 4))))) := by
  have hn' : n < 2 ^ 32 := by omega
  have hu : u32 n = n := Nat.mod_eq_of_lt hn'
  have hu4 : u32 (n + 4) = n + 4 := Nat.mod_eq_of_lt (by omega)
  have hbound : ¬ (4 + n > n + 4) := by omega
  have henc := EncryptStream_fresh u hv h.next (n + 4) h.alloc.2
    (memOf (PDFCryptoHandlerImpl.contentAddPre src n) beyond) (n + 4) (by omega) (by omega) true
    (Heap.read_alloc_new h)
  simp only [PDFCryptoHandlerImpl.EncryptContent, hself, hu, hu4, hbound, if_false,
    CreateProtectedStream_some]
  have halloc : h.alloc = (h.next, h.alloc.2) := rfl
  rw [halloc]
  simp only [henc, Heap.read_store_same]

/-! ## Decryption of one object -/

theorem BlockBasedProtectedStream.writeBlocks_length_le (p : CryptoProvider) (B a : Nat)
    (hc : p.Inverts B a) (hB : 0 < B) (haB : a ∣ B) (n k : Nat) (d : List Nat)
    (had : a ∣ d.length) (hn : d.length ≤ n) :
    (writeBlocks p B n k d).length ≤ d.length + B := by
  induction n generalizing k d with
  | zero => simp [writeBlocks]
  | succ n ih =>
    by_cases hd : d = []
    · subst hd; simp [writeBlocks_nil]
    · have hpos : 0 < d.length := List.length_pos.mpr hd
      obtain ⟨h1, h2, h3, h4⟩ := take_block_ok B a d hd hB haB had
      obtain ⟨_, h5, h6⟩ := hc k (d.take B) h1 h2 h3
      have hl : (d.drop B).length = d.length - B := List.length_drop B d
      simp only [writeBlocks, hd, if_false, List.length_append]
      rcases Nat.lt_or_ge d.length B with hlt | hge
      · have hdrop : d.drop B = [] := List.drop_eq_nil_of_le (by omega)
        rw [hdrop, writeBlocks_nil, List.length_nil]
        omega
      · have := ih (k + 1) (d.drop B) h4 (by omega)
        omega

theorem DecryptStreams_eq (self : PDFCryptoHandlerImpl) (d : Nat)
    (hd : self.m_dataToDecrypted = some d) (h : Heap) (dest : List Nat)
    (chunks : List ((Nat → Nat) × Nat)) :
    self.DecryptStreams h dest chunks
      = .ok (self, h.store d (h.read d ++ chunkBytes chunks), dest) := by
  induction chunks generalizing h with
  | nil => simp [PDFCryptoHandlerImpl.DecryptStreams, chunkBytes, Heap.store_read]
  | cons c cs ih =>
    obtain ⟨src, size⟩ := c
    simp only [PDFCryptoHandlerImpl.DecryptStreams, PDFCryptoHandlerImpl.DecryptStream, hd]
    rw [ih]
    simp [chunkBytes, Heap.read_store_same, Heap.store_store]

theorem u64OfBytes_byteOfU32 (n : Nat) (hn : n < 2 ^ 32) :
    u64OfBytes (byteOfU32 n 0) (byteOfU32 n 1) (byteOfU32 n 2) (byteOfU32 n 3) = n := by
  simp only [u64OfBytes, byteOfU32]
  norm_num at hn ⊢
  omega

theorem DecryptStream_inplace (u : UserPolicy) (hv : u.Valid) (d : Nat) (h : Heap)
    (D : List Nat) (haD : u.align ∣ D.length) (hcell : h.read d = u.cipherText D)
    (h64 : (u.cipherText D).length < 2 ^ 64) :
    ∃ h', PDFProtector.DecryptStream h d (u.stream d (u.cipherText D).length)
        (u.cipherText D).length = .ok h' ∧ (h'.read d).take D.length = D := by
  have hsize : (u.stream d (u.cipherText D).length).Size h = D.length :=
    BlockBasedProtectedStream.Size_written (u.stream d _) u.align rfl u.streamBlockSize_pos
      u.align_dvd hv.inverts D haD h hcell
  have hge : D.length ≤ (u.cipherText D).length :=
    BlockBasedProtectedStream.writeBlocks_length_ge _ _ u.align hv.inverts u.streamBlockSize_pos
      u.align_dvd _ _ _ haD (le_refl _)
  have hu64 : u64 D.length = D.length := Nat.mod_eq_of_lt (by omega)
  unfold PDFProtector.DecryptStream
  dsimp only
  rw [hsize, hu64]
  exact DecryptStream_loop_inplace (u.stream d (u.cipherText D).length) u.align rfl
    u.streamBlockSize_pos u.streamBlockSize_dvd u.align_dvd hv.inverts D (u.cipherText D) haD rfl
    h64 D.length 0 _ h (Nat.zero_le _) (by omega)
    (by simp)
    (fun _ => ⟨dvd_zero _, by simpa using hcell⟩)

theorem DecryptFinish_written (self : PDFCryptoHandlerImpl) (u : UserPolicy) (hv : u.Valid)
    (blk d : Nat) (hprot : self.m_pPDFProtector = some (PDFProtector.mk (some u) blk))
    (hd : self.m_dataToDecrypted = some d) (h : Heap) (D : List Nat) (hD : D ≠ [])
    (haD : u.align ∣ D.length) (hcell : h.read d = u.cipherText D)
    (h64 : (u.cipherText D).length < 2 ^ 64) (hfresh : d ≠ h.next) (dest : List Nat)
    (beyond : Nat → Nat) :
    ∃ h' Y, Y.take D.length = D ∧
      self.DecryptFinish h dest beyond
        = .ok (true,
            { self with
              m_pPDFProtector := some (PDFProtector.mk (some u) u.cryptoProvider.GetBlockSize),
              m_objnum := 0, m_dataToDecrypted := none },
            h',
            dest ++ memRead (memOf Y beyond) 4
              (u64OfBytes (memOf Y beyond 3) (memOf Y beyond 2) (memOf Y beyond 1)
                (memOf Y beyond 0))) := by
  have hge : D.length ≤ (u.cipherText D).length :=
    BlockBasedProtectedStream.writeBlocks_length_ge _ _ u.align hv.inverts u.streamBlockSize_pos
      u.align_dvd _ _ _ haD (le_refl _)
  have hpos : 0 < D.length := List.length_pos.mpr hD
  have hcount : u64 (h.read d).length = (u.cipherText D).length := by
    rw [hcell]; exact Nat.mod_eq_of_lt h64
  have hnz : ¬ ((u.cipherText D).length ≤ 0) := by omega
  have hcell1 : h.alloc.2.read d = u.cipherText D := by
    rw [Heap.read_alloc_ne h d hfresh, hcell]
  obtain ⟨h', hrun, htake⟩ := DecryptStream_inplace u hv d h.alloc.2 D haD hcell1 h64
  refine ⟨h', h'.read d, htake, ?_⟩
  unfold PDFCryptoHandlerImpl.DecryptFinish
  rw [hd]
  dsimp only
  rw [hcount, if_neg hnz, hprot]
  dsimp only
  rw [CreateProtectedStream_some]
  dsimp only
  have halloc : h.alloc = (h.next, h.alloc.2) := rfl
  rw [halloc]
  dsimp only
  rw [hrun]

theorem memRead_memOf_append (A R : List Nat) (beyond : Nat → Nat) (off len : Nat)
    (hle : off + len ≤ A.length) :
    memRead (memOf (A ++ R) beyond) off len = (A.drop off).take len := by
  rw [memRead_memOf _ _ _ _ (by rw [List.length_append]; omega),
    List.drop_append_of_le_length (by omega),
    List.take_append_of_le_length (by rw [List.length_drop]; omega)]

theorem memOf_append_left (A R : List Nat) (beyond : Nat → Nat) (i : Nat) (hi : i < A.length) :
    memOf (A ++ R) beyond i = A.getD i 0 := by
  have h1 : i < (A ++ R).length := by rw [List.length_append]; omega
  simp only [memOf, h1, if_true, List.getD_eq_getElem?_getD]
  rw [List.getElem?_append_left hi]

theorem contentAddPre_memOf (P : List Nat) (beyond : Nat → Nat) :
    PDFCryptoHandlerImpl.contentAddPre (memOf P beyond) P.length
      = [byteOfU32 P.length 3, byteOfU32 P.length 2, byteOfU32 P.length 1,
          byteOfU32 P.length 0] ++ P := by
  unfold PDFCryptoHandlerImpl.contentAddPre
  rw [memRead_memOf _ _ _ _ (by omega)]
  simp

/-- What `DecryptFinish` appends when the decrypted data starts with the header and
the content `contentAddPre` holds for the plaintext `P`. -/
theorem DecryptFinish_output (P R : List Nat) (sb beyond : Nat → Nat) (hP : P.length < 2 ^ 32) :
    memRead (memOf (PDFCryptoHandlerImpl.contentAddPre (memOf P sb) P.length ++ R) beyond) 4
      (u64OfBytes
        (memOf (PDFCryptoHandlerImpl.contentAddPre (memOf P sb) P.length ++ R) beyond 3)
        (memOf (PDFCryptoHandlerImpl.contentAddPre (memOf P sb) P.length ++ R) beyond 2)
        (memOf (PDFCryptoHandlerImpl.contentAddPre (memOf P sb) P.length ++ R) beyond 1)
        (memOf (PDFCryptoHandlerImpl.contentAddPre (memOf P sb) P.length ++ R) beyond 0)) = P := by
  have hlen := contentAddPre_length (memOf P sb) P.length
  rw [memOf_append_left _ _ _ 3 (by omega), memOf_append_left _ _ _ 2 (by omega),
    memOf_append_left _ _ _ 1 (by omega), memOf_append_left _ _ _ 0 (by omega)]
  have hb : ∀ i, i < 4 → (PDFCryptoHandlerImpl.contentAddPre (memOf P sb) P.length).getD i 0
      = byteOfU32 P.length (3 - i) := by
    intro i hi
    rw [contentAddPre_memOf]
    interval_cases i <;> rfl
  rw [hb 3 (by omega), hb 2 (by omega), hb 1 (by omega), hb 0 (by omega)]
  show memRead _ 4 (u64OfBytes (byteOfU32 P.length 0) (byteOfU32 P.length 1)
    (byteOfU32 P.length 2) (byteOfU32 P.length 3)) = P
  rw [u64OfBytes_byteOfU32 _ hP, memRead_memOf_append _ _ _ _ _ (by omega), contentAddPre_memOf]
  simp

/-! ## Round trip of one-shot encryption (claim C1) -/

theorem xorProvider_valid (blockSize : Nat) (ecb : Bool) (hecb : ecb = true → blockSize = 16) :
    UserPolicy.Valid { cryptoProvider := xorProvider blockSize,
                       DoesUseDeprecatedAlgorithms := ecb } := by
  refine ⟨hecb, ?_⟩
  intro k d _ hlen _
  refine ⟨?_, ?_, ?_⟩
  · simp only [xorProvider, List.map_map]
    conv_rhs => rw [← List.map_id d]
    apply List.map_congr_left
    intro b _
    simp [Nat.xor_assoc]
  · simp [xorProvider]
  · simpa [xorProvider] using hlen

theorem ecbPolicy_valid : ecbPolicy.Valid := xorProvider_valid 16 true (fun _ => rfl)

theorem cbcPolicy_valid : cbcPolicy.Valid := xorProvider_valid 4096 false (by simp)

/-- C1: for every plaintext `P` shorter than `2 ^ 32 - 4` and every policy whose
cipher decrypts what it encrypts, `EncryptContent` succeeds, and handing the
ciphertext it wrote to `DecryptStart`, `DecryptStream` (in any chunking) and
`DecryptFinish` of a handler under the same policy appends exactly `P` to the
destination buffer. -/
theorem encrypt_decrypt_roundtrip (u : UserPolicy) (hv : u.Valid) (P : List Nat)
    (hP : P.length < 2 ^ 32 - 4) (enc : PDFCryptoHandlerImpl) (blk : Nat)
    (henc : enc.m_pPDFProtector = some (PDFProtector.mk (some u) blk))
    (h0 : Heap) (objnum version : Nat) (sb b1 : Nat → Nat) :
    ∃ ct sz enc2 h0',
      enc.EncryptContent h0 objnum version (memOf P sb) P.length b1
        = .ok (true, ct, sz, enc2, h0')
      ∧ ∀ (dec : PDFCryptoHandlerImpl) (blk2 : Nat) (h1 : Heap) (objnum2 gennum : Nat)
          (chunks : List ((Nat → Nat) × Nat)) (dest_buf : List Nat) (b2 : Nat → Nat),
          dec.m_pPDFProtector = some (PDFProtector.mk (some u) blk2) →
          chunkBytes chunks = ct →
          ∃ dec2 h2, dec.decryptObject h1 objnum2 gennum chunks dest_buf b2
            = .ok (true, dec2, h2, dest_buf ++ P) := by
  have hP' : P.length < 2 ^ 32 := by omega
  have hb := u.totalSize_bounds hv (P.length + 4) (by omega)
  refine ⟨_, _, _, _, EncryptContent_eq enc u hv blk henc h0 objnum version _ _ hP b1, ?_⟩
  intro dec blk2 h1 objnum2 gennum chunks dest_buf b2 hdec hchunks
  generalize hD : memRead (memOf (PDFCryptoHandlerImpl.contentAddPre (memOf P sb) P.length) b1) 0
    (u.totalSize (P.length + 4)) = D at hchunks
  have hDlen : D.length = u.totalSize (P.length + 4) := by rw [← hD, memRead_length]
  have hDne : D ≠ [] := by
    intro h; rw [h] at hDlen; simp at hDlen; omega
  have hle := BlockBasedProtectedStream.writeBlocks_length_le _ _ u.align hv.inverts
    u.streamBlockSize_pos u.align_dvd D.length 0 D (by rw [hDlen]; exact hb.2.2) (le_refl _)
  have hB4096 : u.streamBlockSize ≤ 4096 := Nat.le_of_dvd (by norm_num) u.streamBlockSize_dvd
  have h64 : (u.cipherText D).length < 2 ^ 64 := by
    have : (2 : Nat) ^ 32 + 4096 + 16 < 2 ^ 64 := by norm_num
    unfold UserPolicy.cipherText
    omega
  have hstreams := DecryptStreams_eq (dec.DecryptStart h1 objnum2 gennum).1 h1.next rfl
    (dec.DecryptStart h1 objnum2 gennum).2 dest_buf chunks
  have hprot : (dec.DecryptStart h1 objnum2 gennum).1.m_pPDFProtector
      = some (PDFProtector.mk (some u) blk2) := hdec
  obtain ⟨h', Y, hY, hfin⟩ := DecryptFinish_written (dec.DecryptStart h1 objnum2 gennum).1 u hv
    blk2 h1.next hprot rfl
    ((dec.DecryptStart h1 objnum2 gennum).2.store h1.next
      ((dec.DecryptStart h1 objnum2 gennum).2.read h1.next ++ chunkBytes chunks))
    D hDne (by rw [hDlen]; exact hb.2.2)
    (by rw [Heap.read_store_same, hchunks]
        show h1.alloc.2.read h1.alloc.1 ++ _ = _
        rw [Heap.read_alloc_new, List.nil_append])
    h64 (by show h1.next ≠ h1.next + 1; omega) dest_buf b2
  have hobj : dec.decryptObject h1 objnum2 gennum chunks dest_buf b2
      = (dec.DecryptStart h1 objnum2 gennum).1.DecryptFinish
          ((dec.DecryptStart h1 objnum2 gennum).2.store h1.next
            ((dec.DecryptStart h1 objnum2 gennum).2.read h1.next ++ chunkBytes chunks))
          dest_buf b2 := by
    unfold PDFCryptoHandlerImpl.decryptObject
    show (match (dec.DecryptStart h1 objnum2 gennum).1.DecryptStreams
            (dec.DecryptStart h1 objnum2 gennum).2 dest_buf chunks with
          | Except.error e => Except.error e
          | Except.ok (self, h, dest_buf) => self.DecryptFinish h dest_buf b2) = _
    rw [hstreams]
  have hYc : Y = PDFCryptoHandlerImpl.contentAddPre (memOf P sb) P.length
      ++ Y.drop (P.length + 4) := by
    have h1 : Y.take (P.length + 4)
        = PDFCryptoHandlerImpl.contentAddPre (memOf P sb) P.length := by
      have : Y.take (P.length + 4) = (Y.take D.length).take (P.length + 4) := by
        rw [List.take_take, Nat.min_eq_left (by rw [hDlen]; exact hb.1)]
      rw [this, hY, ← hD, memRead_take _ _ _ _ hb.1,
        memRead_memOf _ _ _ _ (by rw [contentAddPre_length]; omega), List.drop_zero,
        List.take_of_length_le (by rw [contentAddPre_length])]
    conv_lhs => rw [← List.take_append_drop (P.length + 4) Y, h1]
  have hout := DecryptFinish_output P (Y.drop (P.length + 4)) sb b2 hP'
  rw [← hYc] at hout
  rw [hobj, hfin, hout]
  exact ⟨_, _, rfl⟩

/-- Witness of C1: the plaintext `[1, 2, 3]` under the example ECB policy. -/
theorem encrypt_decrypt_roundtrip_witness :
    ecbPolicy.Valid ∧ [1, 2, 3].length < 2 ^ 32 - 4 ∧
    ∃ ct sz enc2 h0',
      (PDFCryptoHandlerImpl.new (some (PDFProtector.mk (some ecbPolicy) 0))).EncryptContent
          (Heap.mk (fun _ => []) 0) 1 0 (memOf [1, 2, 3] (fun _ => 0)) [1, 2, 3].length
          (fun _ => 0)
        = .ok (true, ct, sz, enc2, h0')
      ∧ ∀ (dec : PDFCryptoHandlerImpl) (blk2 : Nat) (h1 : Heap) (objnum2 gennum : Nat)
          (chunks : List ((Nat → Nat) × Nat)) (dest_buf : List Nat) (b2 : Nat → Nat),
          dec.m_pPDFProtector = some (PDFProtector.mk (some ecbPolicy) blk2) →
          chunkBytes chunks = ct →
          ∃ dec2 h2, dec.decryptObject h1 objnum2 gennum chunks dest_buf b2
            = .ok (true, dec2, h2, dest_buf ++ [1, 2, 3]) :=
  ⟨ecbPolicy_valid, by norm_num,
    encrypt_decrypt_roundtrip ecbPolicy ecbPolicy_valid [1, 2, 3] (by norm_num)
      (PDFCryptoHandlerImpl.new (some (PDFProtector.mk (some ecbPolicy) 0))) 0 rfl
      (Heap.mk (fun _ => []) 0) 1 0 (fun _ => 0) (fun _ => 0)⟩

/-! ## The bytes `EncryptContent` writes (claims C2, C3) -/

theorem BlockBasedProtectedStream.writeBlocks_length_mod (p : CryptoProvider) (B m : Nat)
    (hm : ∀ k d, (p.Encrypt k d).length % m = 0) (n k : Nat) (d : List Nat) :
    (writeBlocks p B n k d).length % m = 0 := by
  induction n generalizing k d with
  | zero => simp [writeBlocks]
  | succ n ih =>
    by_cases hd : d = []
    · subst hd; simp [writeBlocks]
    · simp only [writeBlocks, hd, if_false, List.length_append]
      rw [Nat.add_mod, hm, ih]
      simp

/-- C2, at a concrete input: under the example ECB policy the 16 bytes written for
the plaintext `[1, 2, 3]` do not start with the length `0 0 0 3` in clear (the
header is encrypted with the content), and taking 4 bytes off `dest_size` does not
leave a multiple of 16. -/
theorem EncryptContent_header_encrypted :
    ∃ self2 h2,
      (PDFCryptoHandlerImpl.new (some (PDFProtector.mk (some ecbPolicy) 0))).EncryptContent
          (Heap.mk (fun _ => []) 0) 1 0 (memOf [1, 2, 3] (fun _ => 0)) 3 (fun _ => 0)
        = .ok (true, [90, 90, 90, 89, 91, 88, 89, 90, 90, 90, 90, 90, 90, 90, 90, 90], 16,
            self2, h2)
      ∧ [90, 90, 90, 89, 91, 88, 89, 90, 90, 90, 90, 90, 90, 90, 90, 90].take 4 ≠ [0, 0, 0, 3]
      ∧ (16 - 4) % 16 ≠ 0 := by
  have h := EncryptContent_eq
    (PDFCryptoHandlerImpl.new (some (PDFProtector.mk (some ecbPolicy) 0))) ecbPolicy
    ecbPolicy_valid 0 rfl (Heap.mk (fun _ => []) 0) 1 0 (memOf [1, 2, 3] (fun _ => 0)) 3
    (by norm_num) (fun _ => 0)
  have hct : ecbPolicy.cipherText (memRead (memOf (PDFCryptoHandlerImpl.contentAddPre
      (memOf [1, 2, 3] (fun _ => 0)) 3) (fun _ => 0)) 0 (ecbPolicy.totalSize (3 + 4)))
      = [90, 90, 90, 89, 91, 88, 89, 90, 90, 90, 90, 90, 90, 90, 90, 90] := by
    decide
  rw [hct] at h
  exact ⟨_, _, h, by decide, by decide⟩

/-- C2, as amended: for a plaintext `P` shorter than `2 ^ 32 - 4` and a policy
whose cipher decrypts what it encrypts, all the bytes `EncryptContent` writes to
`dest_buf` are cipher output: they are the block-wise encryption of a plaintext `D`
(and decrypt to it) whose first four bytes are the big-endian length of `P` and
whose next bytes are `P`; `D` is a whole number of 16 byte blocks in ECB mode, and
`dest_size` counts all the bytes written, a multiple of 16 when every cipher output
is. -/
theorem EncryptContent_framing (u : UserPolicy) (hv : u.Valid) (P : List Nat)
    (hP : P.length < 2 ^ 32 - 4) (enc : PDFCryptoHandlerImpl) (blk : Nat)
    (henc : enc.m_pPDFProtector = some (PDFProtector.mk (some u) blk))
    (h0 : Heap) (objnum version : Nat) (sb b1 : Nat → Nat) :
    ∃ dest dest_size enc2 h0' D,
      enc.EncryptContent h0 objnum version (memOf P sb) P.length b1
        = .ok (true, dest, dest_size, enc2, h0')
      ∧ dest = u.cipherText D
      ∧ BlockBasedProtectedStream.readBlocks u.cryptoProvider u.streamBlockSize dest.length 0 dest
          = D
      ∧ D.take 4 = [P.length / 2 ^ 24 % 256, P.length / 2 ^ 16 % 256, P.length / 2 ^ 8 % 256,
          P.length % 256]
      ∧ (D.drop 4).take P.length = P
      ∧ (u.DoesUseDeprecatedAlgorithms = true → D.length % 16 = 0)
      ∧ dest_size = u32 dest.length
      ∧ ((∀ k d, (u.cryptoProvider.Encrypt k d).length % 16 = 0) → dest.length % 16 = 0) := by
  have hb := u.totalSize_bounds hv (P.length + 4) (by omega)
  have hclen := contentAddPre_length (memOf P sb) P.length
  refine ⟨_, _, _, _,
    memRead (memOf (PDFCryptoHandlerImpl.contentAddPre (memOf P sb) P.length) b1) 0
      (u.totalSize (P.length + 4)),
    EncryptContent_eq enc u hv blk henc h0 objnum version _ _ hP b1, rfl, ?_, ?_, ?_, ?_, rfl, ?_⟩
  · have haD : u.align ∣ (memRead (memOf (PDFCryptoHandlerImpl.contentAddPre (memOf P sb)
        P.length) b1) 0 (u.totalSize (P.length + 4))).length := by
      rw [memRead_length]; exact hb.2.2
    unfold UserPolicy.cipherText
    rw [BlockBasedProtectedStream.readBlocks_writeBlocks _ _ u.align hv.inverts
      u.streamBlockSize_pos u.align_dvd _ _ _ _ haD (le_refl _)]
    apply List.take_of_length_le
    have hge := BlockBasedProtectedStream.writeBlocks_length_ge _ _ u.align hv.inverts
      u.streamBlockSize_pos u.align_dvd _ 0 _ haD (le_refl _)
    calc _ ≤ _ := hge
      _ = _ * 1 := (Nat.mul_one _).symm
      _ ≤ _ := Nat.mul_le_mul_left _ u.streamBlockSize_pos
  · rw [memRead_take _ _ _ _ (by omega), memRead_memOf _ _ _ _ (by omega), contentAddPre_memOf]
    simp [byteOfU32]
  · have h1 : (memRead (memOf (PDFCryptoHandlerImpl.contentAddPre (memOf P sb) P.length) b1) 0
        (u.totalSize (P.length + 4))).take (P.length + 4)
        = PDFCryptoHandlerImpl.contentAddPre (memOf P sb) P.length := by
      rw [memRead_take _ _ _ _ hb.1, memRead_memOf _ _ _ _ (by omega), List.drop_zero,
        List.take_of_length_le (by omega)]
    have h2 : ∀ (X : List Nat), (X.drop 4).take P.length
        = ((X.take (P.length + 4)).drop 4).take P.length := by
      intro X
      rw [List.drop_take, Nat.add_sub_cancel, List.take_take, Nat.min_self]
    rw [h2, h1, contentAddPre_memOf]
    simp
  · intro hecb
    rw [memRead_length]
    have := hb.2.2
    simp only [UserPolicy.align, hecb, if_true] at this
    exact Nat.mod_eq_zero_of_dvd this
  · intro hm
    exact BlockBasedProtectedStream.writeBlocks_length_mod _ _ 16 hm _ _ _

/-- Witness of the amended C2: the plaintext `[1, 2, 3]` under the example CBC
policy. -/
theorem EncryptContent_framing_witness :
    cbcPolicy.Valid ∧ [1, 2, 3].length < 2 ^ 32 - 4 ∧
    ∃ dest dest_size enc2 h0' D,
      (PDFCryptoHandlerImpl.new (some (PDFProtector.mk (some cbcPolicy) 0))).EncryptContent
          (Heap.mk (fun _ => []) 0) 1 0 (memOf [1, 2, 3] (fun _ => 0)) [1, 2, 3].length
          (fun _ => 0)
        = .ok (true, dest, dest_size, enc2, h0')
      ∧ dest = cbcPolicy.cipherText D
      ∧ BlockBasedProtectedStream.readBlocks cbcPolicy.cryptoProvider cbcPolicy.streamBlockSize
          dest.length 0 dest = D
      ∧ D.take 4 = [[1, 2, 3].length / 2 ^ 24 % 256, [1, 2, 3].length / 2 ^ 16 % 256,
          [1, 2, 3].length / 2 ^ 8 % 256, [1, 2, 3].length % 256]
      ∧ (D.drop 4).take [1, 2, 3].length = [1, 2, 3]
      ∧ (cbcPolicy.DoesUseDeprecatedAlgorithms = true → D.length % 16 = 0)
      ∧ dest_size = u32 dest.length
      ∧ ((∀ k d, (cbcPolicy.cryptoProvider.Encrypt k d).length % 16 = 0)
          → dest.length % 16 = 0) :=
  ⟨cbcPolicy_valid, by norm_num,
    EncryptContent_framing cbcPolicy cbcPolicy_valid [1, 2, 3] (by norm_num)
      (PDFCryptoHandlerImpl.new (some (PDFProtector.mk (some cbcPolicy) 0))) 0 rfl
      (Heap.mk (fun _ => []) 0) 1 0 (fun _ => 0) (fun _ => 0)⟩

/-- C3, at the failing input `src_size = 2 ^ 32 - 1`: the `uint32_t` sum
`src_size + 4` wraps to 3, so the array allocated for `contentAddPre` has 3 bytes,
not `src_size + 4`, and the header and source bytes are stored past its end. -/
theorem EncryptContent_size_wraps :
    (PDFCryptoHandlerImpl.new (some (PDFProtector.mk (some cbcPolicy) 0))).EncryptContent
        (Heap.mk (fun _ => []) 0) 1 0 (fun _ => 0) 4294967295 (fun _ => 0)
      = .error Fault.outOfBounds
    ∧ u32 (u32 4294967295 + 4) = 3 := by
  constructor
  · simp [PDFCryptoHandlerImpl.EncryptContent, PDFCryptoHandlerImpl.new, u32]
  · norm_num [u32]

/-! ## Progressive encryption (claims C7, C8, C9) -/

/-- C7, at the failing input of two chunks `[1, 2, 3]` and `[0, 0, 0, 1]` (the freed
array read intact): after both `ProgressiveEncryptContent` calls the plaintext of
the pending stream is `[0, 0, 0, 1, 1, 2, 3]`: the second chunk was written at
logical offset 0, over the header, and not behind the 7 bytes written before it. -/
theorem progressive_chunk_written_at_zero :
    (((PDFCryptoHandlerImpl.new (some (PDFProtector.mk (some cbcPolicy) 0))).ProgressiveEncryptStart
        2 1 0 7).2.ProgressiveEncryptContents (Heap.mk (fun _ => []) 0) 1 0 [] intactAfterFree
        [(memOf [1, 2, 3] (fun _ => 0), 3), (memOf [0, 0, 0, 1] (fun _ => 0), 4)]).toOption.bind
      (fun r => r.1.pendingPlaintext r.2.1) = some [0, 0, 0, 1, 1, 2, 3]
    ∧ [0, 0, 0, 1, 1, 2, 3] ≠ [0, 0, 0, 3] ++ [1, 2, 3] ++ [0, 0, 0, 1]
    ∧ [0, 0, 0, 1, 1, 2, 3] ≠ [0, 0, 0, 7] ++ [1, 2, 3] ++ [0, 0, 0, 1] :=
  ⟨rfl, by decide, by decide⟩

/-- C8, at the failing input of two chunks `[1, 2, 3]` and `[0, 0, 0, 1]` (the freed
array read intact): `ProgressiveEncryptFinish` appends 7 bytes, and decrypting them
yields `[1]`, not the concatenation `[1, 2, 3, 0, 0, 0, 1]` of the chunks. -/
theorem progressive_roundtrip_fails :
    ((PDFCryptoHandlerImpl.new (some (PDFProtector.mk (some cbcPolicy) 0))).progressiveObject 2
          (Heap.mk (fun _ => []) 0) 1 0 7
          [(memOf [1, 2, 3] (fun _ => 0), 3), (memOf [0, 0, 0, 1] (fun _ => 0), 4)] []
          intactAfterFree).toOption.map (fun r => (r.1, r.2.2.2))
        = some (true, [90, 90, 90, 91, 91, 88, 89])
    ∧ ((PDFCryptoHandlerImpl.new (some (PDFProtector.mk (some cbcPolicy) 0))).decryptObject
          (Heap.mk (fun _ => []) 0) 1 0 [(memOf [90, 90, 90, 91, 91, 88, 89] (fun _ => 0), 7)] []
          (fun _ => 0)).toOption.map (fun r => (r.1, r.2.2.2))
        = some (true, [1])
    ∧ [1] ≠ [1, 2, 3] ++ [0, 0, 0, 1] :=
  ⟨rfl, rfl, by decide⟩

/-! ### The handler after a progressive run (claim C9) -/

theorem roundToBlock_lt (c b : Nat) : roundToBlock c b < 2 ^ 64 := by
  unfold roundToBlock
  exact lt_of_le_of_lt Nat.and_le_left (Nat.mod_lt _ (by norm_num))

theorem WriteAsync_fst (s : BlockBasedProtectedStream) (h : Heap) (buf : List Nat) (off : Nat) :
    s.WriteAsync h buf off = (buf.length, (s.WriteAsync h buf off).2) := rfl

theorem EncryptStream_loop_total (mem : Nat → Nat) (s : BlockBasedProtectedStream) (T : Nat)
    (hT : T < 2 ^ 64) (fuel r w : Nat) (h : Heap) (hrT : r ≤ T) (hfuel : T - r ≤ fuel * 4096) :
    ∃ h', PDFProtector.EncryptStream.loop mem s T fuel r w h = .ok h' := by
  induction fuel generalizing r w h with
  | zero =>
    have hrT' : r = T := by omega
    subst hrT'
    have h0 : u64 (r + 2 ^ 64 - r) = 0 := by
      unfold u64; rw [Nat.add_sub_cancel_left]; exact Nat.mod_self _
    exact ⟨h, by simp only [PDFProtector.EncryptStream.loop, h0, gt_iff_lt, lt_self_iff_false,
      if_false]⟩
  | succ fuel ih =>
    rcases Nat.eq_or_lt_of_le hrT with hEq | hlt
    · subst hEq
      have h0 : u64 (r + 2 ^ 64 - r) = 0 := by
        unfold u64; rw [Nat.add_sub_cancel_left]; exact Nat.mod_self _
      exact ⟨h, by simp only [PDFProtector.EncryptStream.loop, h0, gt_iff_lt, lt_self_iff_false,
        if_false]⟩
    · have hrem : u64 (T + 2 ^ 64 - r) = T - r := by
        unfold u64
        have : T + 2 ^ 64 - r = (T - r) + 2 ^ 64 := by omega
        rw [this, Nat.add_mod_right, Nat.mod_eq_of_lt (by omega)]
      have hpos : 0 < T - r := by omega
      have hnext : u64 (r + min 4096 (T - r)) = r + min 4096 (T - r) := by
        unfold u64; exact Nat.mod_eq_of_lt (by omega)
      simp only [PDFProtector.EncryptStream.loop, hrem, gt_iff_lt, hpos, if_true, hnext]
      rw [WriteAsync_fst]
      simp only [memRead_length, ne_eq, not_true_eq_false, if_false]
      apply ih
      · omega
      · rw [Nat.succ_mul] at hfuel; omega

theorem EncryptStream_total (u : UserPolicy) (blk : Nat) (h : Heap) (pBuffer : Option (Nat → Nat))
    (bufferSize : Nat) (s : BlockBasedProtectedStream) (bFinish : Bool) :
    ∃ h', PDFProtector.EncryptStream (PDFProtector.mk (some u) blk) h pBuffer bufferSize (some s)
      bFinish = .ok h' := by
  have hflush : ∃ h', (if bFinish = true then
      (match some s with
        | none => Except.error Fault.nullDeref
        | some stream => Except.ok (stream.Flush h))
      else (Except.ok h : Except Fault Heap)) = .ok h' := by
    cases bFinish
    · exact ⟨h, rfl⟩
    · exact ⟨s.Flush h, rfl⟩
  unfold PDFProtector.EncryptStream
  cases pBuffer with
  | none => exact hflush
  | some mem =>
    by_cases h0 : 0 = u32 bufferSize
    · show ∃ h', (if 0 = u32 bufferSize then _ else _) = _
      rw [if_pos h0]
      exact hflush
    · show ∃ h', (if 0 = u32 bufferSize then _ else _) = _
      rw [if_neg h0]
      have hT : (if u.DoesUseDeprecatedAlgorithms = true then roundToBlock (u32 bufferSize) blk
          else u32 bufferSize) < 2 ^ 64 := by
        split
        · exact roundToBlock_lt _ _
        · exact lt_of_lt_of_le (Nat.mod_lt _ (by norm_num)) (by norm_num)
      obtain ⟨h', hl⟩ := EncryptStream_loop_total mem s _ hT
        (if u.DoesUseDeprecatedAlgorithms = true then roundToBlock (u32 bufferSize) blk
          else u32 bufferSize) 0 0 h (Nat.zero_le _) (by omega)
      refine ⟨if bFinish = true then s.Flush h' else h', ?_⟩
      show (match PDFProtector.EncryptStream.loop mem s _ _ 0 0 h with
        | Except.error e => Except.error e
        | Except.ok h' => Except.ok (if bFinish = true then s.Flush h' else h')) = _
      rw [hl]

theorem ProgressiveEncryptContent_next (u : UserPolicy) (blk : Nat) (d : Option Nat) (onum : Nat)
    (s : BlockBasedProtectedStream) (o1 o2 : Option Nat) (h : Heap) (objnum version : Nat)
    (src : Nat → Nat) (size : Nat) (dest : List Nat) (af : List Nat → Nat → Nat) :
    ∃ h', PDFCryptoHandlerImpl.ProgressiveEncryptContent
        (PDFCryptoHandlerImpl.mk (some (PDFProtector.mk (some u) blk)) false d onum (some s) o1 o2)
        h objnum version src size dest af
      = .ok (true,
          PDFCryptoHandlerImpl.mk (some (PDFProtector.mk (some u) blk)) false d onum (some s) o1 o2,
          h', dest) := by
  obtain ⟨h', hl⟩ := EncryptStream_total u blk h (some src) (u32 size) s false
  refine ⟨h', ?_⟩
  unfold PDFCryptoHandlerImpl.ProgressiveEncryptContent
  show (match PDFProtector.EncryptStream (PDFProtector.mk (some u) blk) h (some src) (u32 size)
      (some s) false with
    | Except.error e => Except.error e
    | Except.ok h => Except.ok (true, _, h, dest)) = _
  rw [hl]

theorem ProgressiveEncryptContents_next (u : UserPolicy) (blk : Nat) (d : Option Nat) (onum : Nat)
    (s : BlockBasedProtectedStream) (o1 o2 : Option Nat) (h : Heap) (objnum version : Nat)
    (dest : List Nat) (af : List Nat → Nat → Nat) (chunks : List ((Nat → Nat) × Nat)) :
    ∃ h', PDFCryptoHandlerImpl.ProgressiveEncryptContents
        (PDFCryptoHandlerImpl.mk (some (PDFProtector.mk (some u) blk)) false d onum (some s) o1 o2)
        h objnum version dest af chunks
      = .ok (PDFCryptoHandlerImpl.mk (some (PDFProtector.mk (some u) blk)) false d onum (some s)
          o1 o2, h', dest) := by
  induction chunks generalizing h with
  | nil => exact ⟨h, rfl⟩
  | cons c cs ih =>
    obtain ⟨src, size⟩ := c
    obtain ⟨h1, hc⟩ := ProgressiveEncryptContent_next u blk d onum s o1 o2 h objnum version src size
      dest af
    obtain ⟨h2, hcs⟩ := ih h1
    refine ⟨h2, ?_⟩
    unfold PDFCryptoHandlerImpl.ProgressiveEncryptContents
    rw [hc]
    exact hcs

theorem ProgressiveEncryptContent_first (u : UserPolicy) (blk : Nat) (h : Heap)
    (objnum version : Nat) (src : Nat → Nat) (size : Nat) (hsize : u32 size < 2 ^ 32 - 4)
    (dest : List Nat) (af : List Nat → Nat → Nat) :
    ∃ h', PDFCryptoHandlerImpl.ProgressiveEncryptContent
        (PDFCryptoHandlerImpl.mk (some (PDFProtector.mk (some u) blk)) true none 0 none none none)
        h objnum version src size dest af
      = .ok (true,
          PDFCryptoHandlerImpl.mk (some (PDFProtector.mk (some u) u.cryptoProvider.GetBlockSize))
            false none 0 (some (u.stream h.next (u32 size + 4))) (some h.next) (some h.next),
          h', dest) := by
  have hu4 : u32 (u32 size + 4) = u32 size + 4 := Nat.mod_eq_of_lt (by omega)
  have hbound : ¬ (4 + u32 size > u32 size + 4) := by omega
  obtain ⟨h', hl⟩ := EncryptStream_total u u.cryptoProvider.GetBlockSize h.alloc.2
    (some (af (PDFCryptoHandlerImpl.contentAddPre src (u32 size)))) (u32 size + 4)
    (u.stream h.next (u32 size + 4)) false
  refine ⟨h', ?_⟩
  unfold PDFCryptoHandlerImpl.ProgressiveEncryptContent
  show (if 4 + u32 size > u32 (u32 size + 4) then _ else _) = _
  rw [hu4, if_neg hbound]
  show (match PDFProtector.CreateProtectedStream (PDFProtector.mk (some u) blk) h.next
      (u32 size + 4) with
    | Except.error e => Except.error e
    | Except.ok (stream, protector) => _) = _
  rw [CreateProtectedStream_some]
  show (match PDFProtector.EncryptStream (PDFProtector.mk (some u) u.cryptoProvider.GetBlockSize)
      h.alloc.2 (some (af (PDFCryptoHandlerImpl.contentAddPre src (u32 size)))) (u32 size + 4)
      (some (u.stream h.next (u32 size + 4))) false with
    | Except.error e => Except.error e
    | Except.ok h => Except.ok (true, _, h, dest)) = _
  rw [hl]
  rfl

theorem ProgressiveEncryptFinish_ok (u : UserPolicy) (blk : Nat) (s : BlockBasedProtectedStream)
    (o1 : Option Nat) (o2 : Nat) (h : Heap) (dest : List Nat) :
    PDFCryptoHandlerImpl.ProgressiveEncryptFinish
        (PDFCryptoHandlerImpl.mk (some (PDFProtector.mk (some u) blk)) false none 0 (some s) o1
          (some o2)) h dest
      = .ok (true, PDFCryptoHandlerImpl.new (some (PDFProtector.mk (some u) blk)), h,
          dest ++ h.read o2) := rfl

/-- C9: a run of `ProgressiveEncryptStart` (returning true), one or more
`ProgressiveEncryptContent` calls and `ProgressiveEncryptFinish` on a freshly
constructed handler (policy present, first chunk shorter than `2 ^ 32 - 4`)
completes, and leaves the handler in the state of a freshly constructed handler on
the same protector: started flag false, pending protected stream, output iostream
and backing stream null; so every later run on it is a run on a fresh handler. -/
theorem progressive_run_restores_fresh_state (MIN_RAW_SIZE : Nat) (u : UserPolicy) (blk : Nat)
    (h : Heap) (objnum version raw_size : Nat) (hraw : raw_size > MIN_RAW_SIZE)
    (src : Nat → Nat) (size : Nat) (hsize : u32 size < 2 ^ 32 - 4)
    (rest : List ((Nat → Nat) × Nat)) (dest : List Nat) (af : List Nat → Nat → Nat) :
    ∃ self2 h2 dest2,
      (PDFCryptoHandlerImpl.new (some (PDFProtector.mk (some u) blk))).progressiveObject
          MIN_RAW_SIZE h objnum version raw_size ((src, size) :: rest) dest af
        = .ok (true, self2, h2, dest2)
      ∧ self2 = PDFCryptoHandlerImpl.new self2.m_pPDFProtector
      ∧ self2.m_bProgressiveStart = false
      ∧ self2.m_sharedProtectedStream = none
      ∧ self2.m_outputIOS = none
      ∧ self2.m_outputSharedStream = none
      ∧ ∀ (h3 : Heap) (objnum3 version3 raw_size3 : Nat) (chunks3 : List ((Nat → Nat) × Nat))
          (dest3 : List Nat) (af3 : List Nat → Nat → Nat),
          self2.progressiveObject MIN_RAW_SIZE h3 objnum3 version3 raw_size3 chunks3 dest3 af3
            = (PDFCryptoHandlerImpl.new self2.m_pPDFProtector).progressiveObject MIN_RAW_SIZE h3
                objnum3 version3 raw_size3 chunks3 dest3 af3 := by
  obtain ⟨h1, hfirst⟩ := ProgressiveEncryptContent_first u blk h objnum version src size hsize
    dest af
  obtain ⟨h2, hrest⟩ := ProgressiveEncryptContents_next u u.cryptoProvider.GetBlockSize none 0
    (u.stream h.next (u32 size + 4)) (some h.next) (some h.next) h1 objnum version dest af rest
  refine ⟨PDFCryptoHandlerImpl.new (some (PDFProtector.mk (some u) u.cryptoProvider.GetBlockSize)),
    h2, dest ++ h2.read h.next, ?_, rfl, rfl, rfl, rfl, rfl, fun _ _ _ _ _ _ _ => rfl⟩
  have hstart : (PDFCryptoHandlerImpl.new (some (PDFProtector.mk (some u) blk))).ProgressiveEncryptStart
      MIN_RAW_SIZE objnum version raw_size
      = (true, PDFCryptoHandlerImpl.mk (some (PDFProtector.mk (some u) blk)) true none 0 none
          none none) := by
    unfold PDFCryptoHandlerImpl.ProgressiveEncryptStart
    rw [if_pos hraw]
    rfl
  unfold PDFCryptoHandlerImpl.progressiveObject
  rw [hstart]
  show (match PDFCryptoHandlerImpl.ProgressiveEncryptContents _ h objnum version dest af
      ((src, size) :: rest) with
    | Except.error e => Except.error e
    | Except.ok (self, h, dest_buf) => self.ProgressiveEncryptFinish h dest_buf) = _
  unfold PDFCryptoHandlerImpl.ProgressiveEncryptContents
  rw [hfirst]
  show (match PDFCryptoHandlerImpl.ProgressiveEncryptContents _ h1 objnum version dest af rest with
    | Except.error e => Except.error e
    | Except.ok (self, h, dest_buf) => self.ProgressiveEncryptFinish h dest_buf) = _
  rw [hrest]
  exact ProgressiveEncryptFinish_ok u _ _ _ _ h2 dest

/-- Witness of C9: two chunks under the example CBC policy. -/
theorem progressive_run_restores_fresh_state_witness :
    7 > 2 ∧ u32 3 < 2 ^ 32 - 4 ∧
    ∃ self2 h2 dest2,
      (PDFCryptoHandlerImpl.new (some (PDFProtector.mk (some cbcPolicy) 0))).progressiveObject
          2 (Heap.mk (fun _ => []) 0) 1 0 7
          ((memOf [1, 2, 3] (fun _ => 0), 3) :: [(memOf [9] (fun _ => 0), 1)]) []
          intactAfterFree
        = .ok (true, self2, h2, dest2)
      ∧ self2 = PDFCryptoHandlerImpl.new self2.m_pPDFProtector
      ∧ self2.m_bProgressiveStart = false
      ∧ self2.m_sharedProtectedStream = none
      ∧ self2.m_outputIOS = none
      ∧ self2.m_outputSharedStream = none
      ∧ ∀ (h3 : Heap) (objnum3 version3 raw_size3 : Nat) (chunks3 : List ((Nat → Nat) × Nat))
          (dest3 : List Nat) (af3 : List Nat → Nat → Nat),
          self2.progressiveObject 2 h3 objnum3 version3 raw_size3 chunks3 dest3 af3
            = (PDFCryptoHandlerImpl.new self2.m_pPDFProtector).progressiveObject 2 h3
                objnum3 version3 raw_size3 chunks3 dest3 af3 :=
  ⟨by norm_num, by norm_num [u32],
    progressive_run_restores_fresh_state 2 cbcPolicy 0 (Heap.mk (fun _ => []) 0) 1 0 7
      (by norm_num) (memOf [1, 2, 3] (fun _ => 0)) 3 (by norm_num [u32])
      [(memOf [9] (fun _ => 0), 1)] [] intactAfterFree⟩

/-! ## Errors of `Unprotect`, `OnInit` and the protect operations (claims C11-C14) -/

/-- C11: with an open output stream, `Unprotect` fails with `NotValidFile`
exactly when `IsProtected` is false on the same input, and then no payload was
extracted, no security handler created and no decryption attempted. -/
theorem Unprotect_not_valid_iff (k : WrapperConsts) (doc : WrapperDoc)
    (PDFCREATOR_ERR_SUCCESS : Nat) (inner : Except HandlerError Nat) :
    ((PDFProtector.Unprotect k doc true PDFCREATOR_ERR_SUCCESS inner).1
        = .error RMSError.NotValidFile ↔ IsProtected k doc = false)
      ∧ ((PDFProtector.Unprotect k doc true PDFCREATOR_ERR_SUCCESS inner).1
          = .error RMSError.NotValidFile →
        (PDFProtector.Unprotect k doc true PDFCREATOR_ERR_SUCCESS inner).2 = []) := by
  unfold PDFProtector.Unprotect IsProtected
  simp only [Bool.not_true, Bool.false_eq_true, if_false]
  split_ifs with hg
  · simp
  · rcases inner with e | result
    · cases e <;> simp [HandlerError.toRMSError]
    · by_cases hr : PDFCREATOR_ERR_SUCCESS = result <;> simp [hr]

/-- C12: `OnInit` fails with `CannotAcquirePolicy` exactly when the status is not
`Success`; for a `Success` result carrying a policy it fails with `RightsError`
exactly when the policy is not issued to the owner; it returns true exactly for
`Success` with a policy issued to the owner; and its outcome is always one of
`CannotAcquirePolicy`, `InvalidArgument` (`Success` without a policy), `RightsError`
and true. -/
theorem OnInit_classification (protector : PDFProtector) (r : GetUserPolicyResult) :
    ((OnInit protector r).1 = .error HandlerError.CannotAcquirePolicy
        ↔ r.Status ≠ GetUserPolicyResultStatus.Success)
      ∧ (∀ policy, r.Status = GetUserPolicyResultStatus.Success → r.Policy = some policy →
          ((OnInit protector r).1 = .error HandlerError.RightsError
            ↔ policy.IsIssuedToOwner = false))
      ∧ ((OnInit protector r).1 = .ok true
          ↔ r.Status = GetUserPolicyResultStatus.Success
            ∧ ∃ policy, r.Policy = some policy ∧ policy.IsIssuedToOwner = true)
      ∧ ((OnInit protector r).1 = .error HandlerError.CannotAcquirePolicy
          ∨ (OnInit protector r).1 = .error HandlerError.InvalidArgument
          ∨ (OnInit protector r).1 = .error HandlerError.RightsError
          ∨ (OnInit protector r).1 = .ok true) := by
  obtain ⟨status, policy⟩ := r
  unfold OnInit
  by_cases hs : status = GetUserPolicyResultStatus.Success
  · cases policy with
    | none => simp [hs]
    | some p => cases hp : p.IsIssuedToOwner <;> simp [hs, hp]
  · simp [hs]

/-- C13: `OnInit` stores the acquired policy on the protector exactly when it
returns true; on every failing path the protector is unchanged, so whenever `OnInit`
changes the protector the stored policy is one issued to the owner. -/
theorem OnInit_stores_policy (protector : PDFProtector) (r : GetUserPolicyResult) :
    ((OnInit protector r).1 = .ok true →
        (OnInit protector r).2 = protector.SetUserPolicy r.Policy
          ∧ (OnInit protector r).2.m_userPolicy = r.Policy)
      ∧ ((OnInit protector r).1 ≠ .ok true → (OnInit protector r).2 = protector)
      ∧ ((OnInit protector r).2 ≠ protector →
          ∃ policy, (OnInit protector r).2.m_userPolicy = some policy
            ∧ policy.IsIssuedToOwner = true) := by
  obtain ⟨status, policy⟩ := r
  unfold OnInit
  by_cases hs : status = GetUserPolicyResultStatus.Success
  · cases policy with
    | none => simp [hs]
    | some p => cases hp : p.IsIssuedToOwner <;> simp [hs, hp, PDFProtector.SetUserPolicy]
  · simp [hs]

/-- C14: `ProtectWithTemplate` and `ProtectWithCustomRights` fail with a stream
exception when the output stream is not open, whether or not the input is
protected, and with `AlreadyProtected` when it is open and `IsProtected` is true; in
both cases the protector (its policy included) is unchanged and no policy was
created, nothing encrypted and nothing written. -/
theorem protect_checks_first (self : PDFProtector) (k : WrapperConsts) (doc : WrapperDoc)
    (created : Option UserPolicy) (env : ProtectEnv) :
    self.ProtectWithTemplate k doc false created env = (.error RMSError.StreamException, self, [])
      ∧ self.ProtectWithCustomRights k doc false created env
          = (.error RMSError.StreamException, self, [])
      ∧ (IsProtected k doc = true →
          self.ProtectWithTemplate k doc true created env
              = (.error RMSError.AlreadyProtected, self, [])
            ∧ self.ProtectWithCustomRights k doc true created env
              = (.error RMSError.AlreadyProtected, self, [])) := by
  refine ⟨rfl, rfl, ?_⟩
  intro hp
  simp [PDFProtector.ProtectWithTemplate, PDFProtector.ProtectWithCustomRights, hp]

/-- Witness of C14: an input that is protected, output stream open. -/
theorem protect_checks_first_witness :
    IsProtected exampleConsts exampleProtectedDoc = true
      ∧ (PDFProtector.mk none 0).ProtectWithTemplate exampleConsts exampleProtectedDoc true
            (some cbcPolicy) ⟨0, 0, true, true⟩
          = (.error RMSError.AlreadyProtected, PDFProtector.mk none 0, [])
      ∧ (PDFProtector.mk none 0).ProtectWithCustomRights exampleConsts exampleProtectedDoc true
            (some cbcPolicy) ⟨0, 0, true, true⟩
          = (.error RMSError.AlreadyProtected, PDFProtector.mk none 0, []) :=
  ⟨by decide,
    (protect_checks_first (PDFProtector.mk none 0) exampleConsts exampleProtectedDoc
      (some cbcPolicy) ⟨0, 0, true, true⟩).2.2 (by decide)⟩

/-! ## `FileFormat` tags (claim C15) -/

theorem FileFormat.specReturns_congr {Tag : Type} (ReadTags : Nat → List Tag)
    (a b : Option (List Tag)) (hab : a.getD (ReadTags 0) = b.getD (ReadTags 0))
    (ops : List (TagCall Tag)) :
    FileFormat.specReturns ReadTags a ops = FileFormat.specReturns ReadTags b ops := by
  induction ops generalizing a b with
  | nil => rfl
  | cons op rest ih =>
    cases op with
    | getTags => simp only [FileFormat.specReturns, hab, ih a b hab]
    | setTags t => simp only [FileFormat.specReturns]

theorem FileFormat.run_cached {Tag : Type} (ReadTags : Nat → List Tag) (self : FileFormat Tag)
    (hc : self.mHasTags = true) (ops : List (TagCall Tag)) :
    (FileFormat.run ReadTags self ops).1 = FileFormat.specReturns ReadTags (some self.mTags) ops
      ∧ (FileFormat.run ReadTags self ops).2.readCalls = self.readCalls := by
  induction ops generalizing self with
  | nil => exact ⟨rfl, rfl⟩
  | cons op rest ih =>
    cases op with
    | getTags =>
      have hg : self.GetTags ReadTags = (self.mTags, self) := by
        simp [FileFormat.GetTags, hc]
      obtain ⟨h1, h2⟩ := ih self hc
      simp only [FileFormat.run, hg, FileFormat.specReturns, Option.getD_some]
      exact ⟨by rw [h1], h2⟩
    | setTags t =>
      obtain ⟨h1, h2⟩ := ih (self.SetTags t) rfl
      simp only [FileFormat.run, FileFormat.specReturns]
      exact ⟨h1, h2⟩

/-- C15: for every sequence of `GetTags` and `SetTags` calls on a new
`FileFormat`, every `GetTags` returns the value of the most recent `SetTags` if
there was one and otherwise the value `ReadTags` returned on the first `GetTags`;
`ReadTags` is called at most once, and it is called exactly when the first call
of the sequence is a `GetTags` (that is, by a `GetTags` made before any tags were
read or set). -/
theorem FileFormat_tags_cached {Tag : Type} (ReadTags : Nat → List Tag)
    (ops : List (TagCall Tag)) :
    (FileFormat.run ReadTags (FileFormat.new Tag) ops).1
        = FileFormat.specReturns ReadTags none ops
      ∧ (FileFormat.run ReadTags (FileFormat.new Tag) ops).2.readCalls ≤ 1
      ∧ ((FileFormat.run ReadTags (FileFormat.new Tag) ops).2.readCalls = 1
          ↔ ∃ rest, ops = TagCall.getTags :: rest) := by
  cases ops with
  | nil => simp [FileFormat.run, FileFormat.specReturns, FileFormat.new]
  | cons op rest =>
    cases op with
    | getTags =>
      have hg : (FileFormat.new Tag).GetTags ReadTags
          = (ReadTags 0, { mTags := ReadTags 0, mHasTags := true, readCalls := 1 }) := rfl
      obtain ⟨h1, h2⟩ := FileFormat.run_cached ReadTags
        { mTags := ReadTags 0, mHasTags := true, readCalls := 1 } rfl rest
      simp only [FileFormat.run, hg, FileFormat.specReturns, Option.getD_none]
      refine ⟨?_, ?_, ?_⟩
      · rw [h1, FileFormat.specReturns_congr ReadTags (some (ReadTags 0)) none rfl]
      · rw [h2]
      · rw [h2]; simp
    | setTags t =>
      obtain ⟨h1, h2⟩ := FileFormat.run_cached ReadTags ((FileFormat.new Tag).SetTags t) rfl rest
      simp only [FileFormat.run, FileFormat.specReturns]
      refine ⟨h1, ?_, ?_⟩
      · rw [h2]; simp [FileFormat.SetTags, FileFormat.new]
      · rw [h2]; simp [FileFormat.SetTags, FileFormat.new]

/-! ## The size bound (claim C20) -/

/-- C20: for a plaintext of at most `2 ^ 32 - 21` bytes, the plaintext
`EncryptContent` writes through the protected stream (`src_size + 4` bytes, rounded
up to a multiple of 16 under a policy with deprecated algorithms) is at most
`EncryptGetSize(src_size)` bytes long. -/
theorem EncryptGetSize_upper_bound (u : UserPolicy) (hv : u.Valid) (P : List Nat)
    (hP : P.length ≤ 2 ^ 32 - 21) (enc : PDFCryptoHandlerImpl) (blk : Nat)
    (henc : enc.m_pPDFProtector = some (PDFProtector.mk (some u) blk))
    (h0 : Heap) (objnum version : Nat) (sb b1 : Nat → Nat) (src_buf : List Nat) :
    ∃ dest dest_size enc2 h0' D,
      enc.EncryptContent h0 objnum version (memOf P sb) P.length b1
        = .ok (true, dest, dest_size, enc2, h0')
      ∧ dest = u.cipherText D
      ∧ D.length = (if u.DoesUseDeprecatedAlgorithms = true then 16 * ((P.length + 4 + 15) / 16)
          else P.length + 4)
      ∧ D.length ≤ EncryptGetSize objnum version src_buf P.length := by
  have hP4 : P.length < 2 ^ 32 - 4 := by
    have : (2 : Nat) ^ 32 - 21 < 2 ^ 32 - 4 := by norm_num
    omega
  have hlen : u.totalSize (P.length + 4)
      = (if u.DoesUseDeprecatedAlgorithms = true then 16 * ((P.length + 4 + 15) / 16)
          else P.length + 4) := by
    unfold UserPolicy.totalSize
    by_cases hecb : u.DoesUseDeprecatedAlgorithms = true
    · rw [if_pos hecb, if_pos hecb, hv.1 hecb, roundToBlock_16 _ (by omega)]
    · rw [if_neg hecb, if_neg hecb]
  have hsize : EncryptGetSize objnum version src_buf P.length
      = P.length + 4 + (16 - (P.length + 4) % 16) := by
    simp only [EncryptGetSize, u32]
    norm_num at hP ⊢
    omega
  refine ⟨_, _, _, _,
    memRead (memOf (PDFCryptoHandlerImpl.contentAddPre (memOf P sb) P.length) b1) 0
      (u.totalSize (P.length + 4)),
    EncryptContent_eq enc u hv blk henc h0 objnum version _ _ hP4 b1, rfl, ?_, ?_⟩
  · rw [memRead_length, hlen]
  · rw [memRead_length, hlen, hsize]
    split <;> omega

/-- Witness of C20: a 12 byte plaintext under the example ECB policy. -/
theorem EncryptGetSize_upper_bound_witness :
    ecbPolicy.Valid ∧ (List.replicate 12 7).length ≤ 2 ^ 32 - 21 ∧
    ∃ dest dest_size enc2 h0' D,
      (PDFCryptoHandlerImpl.new (some (PDFProtector.mk (some ecbPolicy) 0))).EncryptContent
          (Heap.mk (fun _ => []) 0) 1 0 (memOf (List.replicate 12 7) (fun _ => 0))
          (List.replicate 12 7).length (fun _ => 0)
        = .ok (true, dest, dest_size, enc2, h0')
      ∧ dest = ecbPolicy.cipherText D
      ∧ D.length = (if ecbPolicy.DoesUseDeprecatedAlgorithms = true
          then 16 * (((List.replicate 12 7).length + 4 + 15) / 16)
          else (List.replicate 12 7).length + 4)
      ∧ D.length ≤ EncryptGetSize 1 0 [] (List.replicate 12 7).length :=
  ⟨ecbPolicy_valid, by norm_num,
    EncryptGetSize_upper_bound ecbPolicy ecbPolicy_valid (List.replicate 12 7) (by norm_num)
      (PDFCryptoHandlerImpl.new (some (PDFProtector.mk (some ecbPolicy) 0))) 0 rfl
      (Heap.mk (fun _ => []) 0) 1 0 (fun _ => 0) (fun _ => 0) []⟩
/-! ## What `DecryptFinish` appends (claim C19) -/

theorem DecryptStream_loop_total (out : Nat) (s : BlockBasedProtectedStream) (orig T : Nat)
    (hT : T < 2 ^ 64) (fuel r w : Nat) (buffer : List Nat) (h : Heap) (hrT : r ≤ T)
    (hfuel : T - r ≤ fuel * 4096) :
    ∃ h', PDFProtector.DecryptStream.loop out s orig T fuel r w buffer h = .ok h' := by
  induction fuel generalizing r w buffer h with
  | zero =>
    have hrT' : r = T := by omega
    subst hrT'
    have h0 : u64 (r + 2 ^ 64 - r) = 0 := by
      unfold u64; rw [Nat.add_sub_cancel_left]; exact Nat.mod_self _
    exact ⟨h, by simp only [PDFProtector.DecryptStream.loop, h0, gt_iff_lt, lt_self_iff_false,
      if_false]⟩
  | succ fuel ih =>
    rcases Nat.eq_or_lt_of_le hrT with hEq | hlt
    · subst hEq
      have h0 : u64 (r + 2 ^ 64 - r) = 0 := by
        unfold u64; rw [Nat.add_sub_cancel_left]; exact Nat.mod_self _
      exact ⟨h, by simp only [PDFProtector.DecryptStream.loop, h0, gt_iff_lt, lt_self_iff_false,
        if_false]⟩
    · have hrem : u64 (T + 2 ^ 64 - r) = T - r := by
        unfold u64
        have : T + 2 ^ 64 - r = (T - r) + 2 ^ 64 := by omega
        rw [this, Nat.add_mod_right, Nat.mod_eq_of_lt (by omega)]
      have hpos : 0 < T - r := by omega
      have hnext : u64 (r + min 4096 (T - r)) = r + min 4096 (T - r) := by
        unfold u64; exact Nat.mod_eq_of_lt (by omega)
      simp only [PDFProtector.DecryptStream.loop, hrem, gt_iff_lt, hpos, if_true, hnext]
      split
      · exact ⟨h, rfl⟩
      · apply ih
        · omega
        · rw [Nat.succ_mul] at hfuel; omega

theorem DecryptFinish_total (self : PDFCryptoHandlerImpl) (u : UserPolicy) (blk d : Nat)
    (hprot : self.m_pPDFProtector = some (PDFProtector.mk (some u) blk))
    (hd : self.m_dataToDecrypted = some d) (h : Heap) (hne : h.read d ≠ [])
    (h64 : (h.read d).length < 2 ^ 64) (dest : List Nat) (beyond : Nat → Nat) :
    ∃ h',
      self.DecryptFinish h dest beyond
        = .ok (true,
            { self with
              m_pPDFProtector := some (PDFProtector.mk (some u) u.cryptoProvider.GetBlockSize),
              m_objnum := 0, m_dataToDecrypted := none },
            h',
            dest ++ memRead (memOf (h'.read d) beyond) 4
              (u64OfBytes (memOf (h'.read d) beyond 3) (memOf (h'.read d) beyond 2)
                (memOf (h'.read d) beyond 1) (memOf (h'.read d) beyond 0))) := by
  have hpos : 0 < (h.read d).length := List.length_pos.mpr hne
  have hcount : u64 (h.read d).length = (h.read d).length := Nat.mod_eq_of_lt h64
  have hnz : ¬ ((h.read d).length ≤ 0) := by omega
  obtain ⟨h', hrun⟩ : ∃ h', PDFProtector.DecryptStream h.alloc.2 d
      (u.stream d (h.read d).length) (h.read d).length = .ok h' := by
    unfold PDFProtector.DecryptStream
    exact DecryptStream_loop_total d (u.stream d (h.read d).length) (h.read d).length
      (u64 ((u.stream d (h.read d).length).Size h.alloc.2))
      (by unfold u64; exact Nat.mod_lt _ (by norm_num)) _ 0 0 _ _ (Nat.zero_le _) (by omega)
  refine ⟨h', ?_⟩
  unfold PDFCryptoHandlerImpl.DecryptFinish
  rw [hd]
  dsimp only
  rw [hcount, if_neg hnz, hprot]
  dsimp only
  rw [CreateProtectedStream_some]
  dsimp only
  have halloc : h.alloc = (h.next, h.alloc.2) := rfl
  rw [halloc]
  dsimp only
  rw [hrun]

/-- C19, at the failing input of the five byte ciphertext `[90, 90, 90, 82, 93]`
(example CBC policy): the decrypted data is `[0, 0, 0, 8, 7]`, a header of 8 and one
byte of content, and its bytes `4 .. 11` do not exist; `DecryptFinish` checks
nothing and appends 8 bytes, of which only the first is a byte of the decrypted
data and the other seven are read behind it. -/
theorem DecryptFinish_reads_past_data :
    ((PDFCryptoHandlerImpl.new (some (PDFProtector.mk (some cbcPolicy) 0))).decryptObject
          (Heap.mk (fun _ => []) 0) 1 0 [(memOf [90, 90, 90, 82, 93] (fun _ => 0), 5)] []
          (fun i => 100 + i)).toOption.map (fun r => (r.2.2.1.read 0, r.2.2.2))
        = some ([0, 0, 0, 8, 7], [7, 100, 101, 102, 103, 104, 105, 106])
    ∧ [7, 100, 101, 102, 103, 104, 105, 106] ≠ ([0, 0, 0, 8, 7].drop 4).take 8 :=
  ⟨rfl, by decide⟩

/-- For a ciphertext that is the encryption of the data `D` under a policy whose
cipher decrypts what it encrypts, with a header `L` (the big-endian value of bytes
0..3 of `D`) that fits, `4 + L <= |D|`: `DecryptFinish` appends bytes `4 .. 4+L-1`
of `D`, sets the object number to 0 and releases the accumulation buffer; a
`DecryptStream` call on the same handler appends nothing to the destination and
only appends its chunk to the accumulated data. -/
theorem DecryptFinish_well_formed (self : PDFCryptoHandlerImpl) (u : UserPolicy) (hv : u.Valid)
    (blk d : Nat) (hprot : self.m_pPDFProtector = some (PDFProtector.mk (some u) blk))
    (hd : self.m_dataToDecrypted = some d) (h : Heap) (D : List Nat) (hD : D ≠ [])
    (haD : u.align ∣ D.length) (hcell : h.read d = u.cipherText D)
    (h64 : (u.cipherText D).length < 2 ^ 64) (hfresh : d ≠ h.next) (dest : List Nat)
    (beyond : Nat → Nat)
    (hL : 4 + (16777216 * D.getD 0 0 + 65536 * D.getD 1 0 + 256 * D.getD 2 0 + D.getD 3 0)
      ≤ D.length) :
    ∃ h' self2,
      self.DecryptFinish h dest beyond
        = .ok (true, self2, h',
            dest ++ (D.drop 4).take
              (16777216 * D.getD 0 0 + 65536 * D.getD 1 0 + 256 * D.getD 2 0 + D.getD 3 0))
      ∧ self2.m_objnum = 0
      ∧ self2.m_dataToDecrypted = none
      ∧ ∀ (src : Nat → Nat) (size : Nat) (dest0 : List Nat),
          self.DecryptStream h src size dest0
            = .ok (true, self, h.store d (h.read d ++ memRead src 0 (u32 size)), dest0) := by
  obtain ⟨h', Y, hY, hfin⟩ := DecryptFinish_written self u hv blk d hprot hd h D hD haD hcell h64
    hfresh dest beyond
  have hYD : Y = D ++ Y.drop D.length := by
    conv_lhs => rw [← List.take_append_drop D.length Y, hY]
  have hLv : u64OfBytes (D.getD 3 0) (D.getD 2 0) (D.getD 1 0) (D.getD 0 0)
      = 16777216 * D.getD 0 0 + 65536 * D.getD 1 0 + 256 * D.getD 2 0 + D.getD 3 0 := by
    unfold u64OfBytes
    omega
  rw [hYD, memOf_append_left _ _ _ 3 (by omega), memOf_append_left _ _ _ 2 (by omega),
    memOf_append_left _ _ _ 1 (by omega), memOf_append_left _ _ _ 0 (by omega), hLv,
    memRead_memOf_append _ _ _ _ _ hL] at hfin
  refine ⟨h', _, hfin, rfl, rfl, ?_⟩
  intro src size dest0
  unfold PDFCryptoHandlerImpl.DecryptStream
  rw [hd]

/-- The handler that accumulated `[90, 90, 90, 91, 93]`, the encryption of
`[0, 0, 0, 1, 7]` under the example CBC policy (a header of 1 and one byte of
content): `DecryptFinish` appends the byte `7`. -/
theorem DecryptFinish_well_formed_witness :
    ∃ h' self2,
      PDFCryptoHandlerImpl.DecryptFinish
          (PDFCryptoHandlerImpl.mk (some (PDFProtector.mk (some cbcPolicy) 0)) false (some 0) 1
            none none none)
          (Heap.mk (fun _ => [90, 90, 90, 91, 93]) 1) [] (fun _ => 0)
        = .ok (true, self2, h', [] ++ [7])
      ∧ self2.m_objnum = 0
      ∧ self2.m_dataToDecrypted = none := by
  obtain ⟨h', self2, hfin, h0, hnone, _⟩ := DecryptFinish_well_formed
    (PDFCryptoHandlerImpl.mk (some (PDFProtector.mk (some cbcPolicy) 0)) false (some 0) 1
      none none none) cbcPolicy cbcPolicy_valid 0 0 rfl rfl
    (Heap.mk (fun _ => [90, 90, 90, 91, 93]) 1) [0, 0, 0, 1, 7] (by decide) (by decide)
    (by decide) (by decide) (by decide) [] (fun _ => 0) (by decide)
  exact ⟨h', self2, hfin, h0, hnone⟩

/-! ## Custom properties (claims C16, C17, C18) -/

theorem PropertyNode.property?_eq_some (c : PropertyNode) (p : CustomProperty) :
    c.property? = some p ↔
      c.elementName = "property" ∧ ∃ v, c.valueChild = some v ∧ v.nsPrefix = "vt"
        ∧ ((∃ text, v.value = .lpwstr text ∧ p = (c.name, text))
          ∨ (∃ n, v.value = .i4 n ∧ p = (c.name, toString n))) := by
  unfold PropertyNode.property?
  by_cases hn : c.elementName = "property"
  · rcases hv : c.valueChild with _ | v
    · simp [hn]
    · by_cases hp : v.nsPrefix = "vt"
      · rcases hval : v.value with text | n | ⟨ty, text⟩
        · simp [hn, hp, hval, eq_comm]
        · simp [hn, hp, hval, eq_comm]
        · simp [hn, hp, hval]
      · simp [hn, hp]
  · simp [hn]

/-- C16: `GetProperties` of the empty document is empty; for every document it
returns, in document order, one pair for each child that is named `property` and
has a value child of prefix `vt` and type `lpwstr` (its text) or `i4` (its decimal
string), and nothing for any other child, which never makes it fail; so on the two
test documents with a wrong element name or a wrong value prefix the middle child is
skipped. -/
theorem GetProperties_spec :
    GetProperties [] = []
      ∧ (∀ (a b : List PropertyNode) (c : PropertyNode),
          GetProperties (a ++ c :: b)
            = GetProperties a ++ (c.property?).toList ++ GetProperties b)
      ∧ (∀ (c : PropertyNode) (p : CustomProperty),
          c.property? = some p ↔
            c.elementName = "property" ∧ ∃ v, c.valueChild = some v ∧ v.nsPrefix = "vt"
              ∧ ((∃ text, v.value = .lpwstr text ∧ p = (c.name, text))
                ∨ (∃ n, v.value = .i4 n ∧ p = (c.name, toString n))))
      ∧ GetProperties multiPropertyDoc
          = [("PropName0", "PropValue0"), ("PropName1", "PropValue1"),
             ("PropName2", "PropValue2")]
      ∧ GetProperties wrongPropertyNodeDoc = [("PropName0", "PropValue0"), ("PropName2", "2")]
      ∧ GetProperties wrongPropertySubNodeDoc
          = [("PropName0", "PropValue0"), ("PropName2", "2")] := by
  refine ⟨rfl, ?_, PropertyNode.property?_eq_some, by decide, by decide, by decide⟩
  intro a b c
  unfold GetProperties
  rw [List.filterMap_append, List.filterMap_cons]
  cases c.property? <;> simp

theorem GetProperties_numbered (first : Nat) (adds : List CustomProperty) :
    GetProperties (numbered first adds) = adds := by
  induction adds generalizing first with
  | nil => rfl
  | cons p rest ih =>
    have hp : (newProperty first p).property? = some p := by
      simp [PropertyNode.property?, newProperty]
    have := ih (first + 1)
    unfold GetProperties at this ⊢
    simp only [numbered, List.filterMap_cons, hp, this]

theorem GetProperties_filter (doc : List PropertyNode) (ks : List String) :
    GetProperties (keptNodes doc ks)
      = (GetProperties doc).filter (fun p => !ks.contains p.1) := by
  unfold keptNodes
  induction doc with
  | nil => rfl
  | cons c rest ih =>
    unfold GetProperties at ih ⊢
    simp only [Bool.not_and, List.elem_eq_mem] at ih
    rcases hp : c.property? with _ | p
    · by_cases hk : c.elementName = "property" <;> by_cases hk2 : c.name ∈ ks <;>
        simp [List.filter_cons, hk, hk2, hp, ih]
    · obtain ⟨hn, v, _, _, hval⟩ := (PropertyNode.property?_eq_some c p).mp hp
      have hname : p.1 = c.name := by
        rcases hval with ⟨t, _, rfl⟩ | ⟨n, _, rfl⟩ <;> rfl
      by_cases hk : c.name ∈ ks <;> simp [List.filter_cons, hn, hk, hp, hname, ih]

theorem GetProperties_append (a b : List PropertyNode) :
    GetProperties (a ++ b) = GetProperties a ++ GetProperties b := by
  unfold GetProperties
  exact List.filterMap_append a b _

theorem GetProperties_update (doc : List PropertyNode) (adds : List CustomProperty)
    (ks : List String) :
    GetProperties (UpdateProperties doc adds ks)
      = (GetProperties doc).filter (fun p => !ks.contains p.1) ++ adds := by
  unfold UpdateProperties
  show GetProperties (_ ++ _) = _
  rw [GetProperties_append, GetProperties_filter, GetProperties_numbered]

/-- C17: `UpdateProperties` is total, and removing `ks` has the same result as
removing `ks` without duplicates and without the keys that name no property
element of the document; the properties afterwards are those not named in `ks`,
followed by the additions; so removing a key that is not in the document leaves
`GetProperties` unchanged, and removing `[k, k]` equals removing `[k]`. -/
theorem UpdateProperties_removals (doc : List PropertyNode) (adds : List CustomProperty)
    (ks : List String) :
    UpdateProperties doc adds ks
        = UpdateProperties doc adds (ks.dedup.filter (fun k =>
            decide (k ∈ (doc.filter (fun c => c.elementName = "property")).map
              PropertyNode.name)))
      ∧ GetProperties (UpdateProperties doc adds ks)
          = (GetProperties doc).filter (fun p => !ks.contains p.1) ++ adds
      ∧ (∀ k, k ∉ (GetProperties doc).map Prod.fst →
          GetProperties (UpdateProperties doc [] [k]) = GetProperties doc)
      ∧ (∀ k, UpdateProperties doc adds [k, k] = UpdateProperties doc adds [k]) := by
  have hkept : ∀ (ks1 ks2 : List String),
      (∀ c ∈ doc, c.elementName = "property" → (c.name ∈ ks1 ↔ c.name ∈ ks2)) →
      UpdateProperties doc adds ks1 = UpdateProperties doc adds ks2 := by
    intro ks1 ks2 h
    have hf : keptNodes doc ks1 = keptNodes doc ks2 := by
      unfold keptNodes
      apply List.filter_congr
      intro c hc
      by_cases hn : c.elementName = "property"
      · have := h c hc hn
        by_cases h1 : c.name ∈ ks1
        · simp [hn, h1, this.mp h1]
        · have h2 : c.name ∉ ks2 := fun h2 => h1 (this.mpr h2)
          simp [hn, h1, h2]
      · simp [hn]
    unfold UpdateProperties
    simp only [hf]
  refine ⟨?_, GetProperties_update doc adds ks, ?_, ?_⟩
  · apply hkept
    intro c hc hn
    simp only [List.mem_filter, List.mem_dedup, decide_eq_true_eq, List.mem_map]
    constructor
    · intro h
      exact ⟨h, c, ⟨hc, by simp [hn]⟩, rfl⟩
    · intro h
      exact h.1
  · intro k hk
    rw [GetProperties_update, List.append_nil]
    apply List.filter_eq_self.mpr
    intro p hp
    have : p.1 ≠ k := by
      intro h
      apply hk
      rw [← h]
      exact List.mem_map_of_mem _ hp
    simp [this]
  · intro k
    apply hkept
    intro c _ _
    simp

theorem numbered_getElem? (first : Nat) (adds : List CustomProperty) (i : Nat) :
    (numbered first adds)[i]? = (adds[i]?).map (newProperty (first + i)) := by
  induction adds generalizing first i with
  | nil => rfl
  | cons p rest ih =>
    cases i with
    | zero => simp [numbered]
    | succ i =>
      simp only [numbered, List.getElem?_cons_succ, ih]
      have : first + 1 + i = first + (i + 1) := by omega
      rw [this]

theorem maxPid_ge (doc : List PropertyNode) (c : PropertyNode) (hc : c ∈ doc)
    (hn : c.elementName = "property") : c.pid ≤ maxPid doc := by
  unfold maxPid
  induction doc with
  | nil => cases hc
  | cons d rest ih =>
    rcases List.mem_cons.mp hc with rfl | h
    · simp [List.filter_cons, hn]
    · by_cases hd : d.elementName = "property"
      · simp only [List.filter_cons, hd, decide_True, if_true, List.foldr_cons]
        exact le_trans (ih h) (le_max_right _ _)
      · simp only [List.filter_cons, hd, decide_False, Bool.false_eq_true, if_false]
        exact ih h

theorem maxPid_attained (doc : List PropertyNode) :
    maxPid doc = 0 ∨ ∃ c ∈ doc, c.elementName = "property" ∧ c.pid = maxPid doc := by
  unfold maxPid
  induction doc with
  | nil => exact Or.inl rfl
  | cons d rest ih =>
    by_cases hd : d.elementName = "property"
    · simp only [List.filter_cons, hd, decide_True, if_true, List.foldr_cons]
      rcases le_total d.pid
        ((rest.filter (fun c => c.elementName = "property")).foldr (fun c m => max c.pid m) 0)
        with hle | hle
      · rw [max_eq_right hle]
        rcases ih with h0 | ⟨c, hc, hcn, hcp⟩
        · exact Or.inl h0
        · exact Or.inr ⟨c, List.mem_cons_of_mem _ hc, hcn, hcp⟩
      · rw [max_eq_left hle]
        exact Or.inr ⟨d, List.mem_cons_self _ _, hd, rfl⟩
    · simp only [List.filter_cons, hd, decide_False, Bool.false_eq_true, if_false]
      rcases ih with h0 | ⟨c, hc, hcn, hcp⟩
      · exact Or.inl h0
      · exact Or.inr ⟨c, List.mem_cons_of_mem _ hc, hcn, hcp⟩

set_option maxRecDepth 100000 in
/-- C18: after `UpdateProperties`, the document is the kept children (those of the
original that are not property elements named in the removal list) in their original
order and unchanged, so with their original `pid`, followed by one string property
for each addition in argument order, with consecutive `pid` values starting one
above the largest `pid` of the kept property elements; `Serialize` emits the fixed
header, these elements without white space between them and the closing tag, which
for the test gives exactly `expectdXml` (kept pid 2, additions pid 3 and 4). -/
theorem Serialize_after_update (doc : List PropertyNode) (adds : List CustomProperty)
    (ks : List String) :
    UpdateProperties doc adds ks
        = keptNodes doc ks ++ numbered (maxPid (keptNodes doc ks) + 1) adds
      ∧ (keptNodes doc ks).Sublist doc
      ∧ (∀ c ∈ doc, c ∈ keptNodes doc ks ↔ ¬ (c.elementName = "property" ∧ c.name ∈ ks))
      ∧ (∀ i, (numbered (maxPid (keptNodes doc ks) + 1) adds)[i]?
          = (adds[i]?).map (newProperty (maxPid (keptNodes doc ks) + 1 + i)))
      ∧ (∀ c ∈ keptNodes doc ks, c.elementName = "property" → c.pid ≤ maxPid (keptNodes doc ks))
      ∧ (maxPid (keptNodes doc ks) = 0
          ∨ ∃ c ∈ keptNodes doc ks, c.elementName = "property"
              ∧ c.pid = maxPid (keptNodes doc ks))
      ∧ Serialize (UpdateProperties doc adds ks)
          = serializeHeader
              ++ String.join ((keptNodes doc ks
                  ++ numbered (maxPid (keptNodes doc ks) + 1) adds).map PropertyNode.serialize)
              ++ "</Properties>"
      ∧ Serialize (UpdateProperties multiPropertyDoc
            [("PropName3", "PropValue3"), ("PropName4", "PropValue4")]
            ["PropName0", "PropName2"]) = expectdXml := by
  refine ⟨rfl, List.filter_sublist _, ?_, numbered_getElem? _ _, maxPid_ge _, maxPid_attained _,
    rfl, by decide⟩
  intro c hc
  unfold keptNodes
  simp only [List.mem_filter, hc, true_and, Bool.not_eq_true', Bool.and_eq_false_imp,
    decide_eq_true_eq, not_and]
  constructor
  · intro h hn hk
    have := h hn
    simp [hk] at this
  · intro h hn
    simpa using h hn

/-! ## Reads outside the buffers (claims C21, C22) -/

/-- C21, at the failing input of a 7 byte buffer under the example ECB policy
(cipher block 16): `EncryptStream` copies 16 bytes from the buffer, so what it writes
depends on the 9 bytes of memory behind the buffer: zero bytes there give nine bytes
`90` of ciphertext, bytes `255` there give nine bytes `165`. -/
theorem EncryptStream_reads_past_buffer :
    ((PDFProtector.mk (some ecbPolicy) 16).EncryptStream (Heap.mk (fun _ => []) 1)
        (some (memOf [1, 2, 3, 4, 5, 6, 7] (fun _ => 0))) 7 (some (ecbPolicy.stream 0 7))
        true).toOption.map (fun h => h.read 0)
      = some [91, 88, 89, 94, 95, 92, 93, 90, 90, 90, 90, 90, 90, 90, 90, 90]
    ∧ ((PDFProtector.mk (some ecbPolicy) 16).EncryptStream (Heap.mk (fun _ => []) 1)
        (some (memOf [1, 2, 3, 4, 5, 6, 7] (fun _ => 255))) 7 (some (ecbPolicy.stream 0 7))
        true).toOption.map (fun h => h.read 0)
      = some [91, 88, 89, 94, 95, 92, 93, 165, 165, 165, 165, 165, 165, 165, 165, 165]
    ∧ ecbPolicy.totalSize 7 = 16 :=
  ⟨rfl, rfl, rfl⟩

/-- C22, at the failing input of the one byte ciphertext `[90]` (example CBC policy):
the decrypted data is the single byte `[0]`, yet `DecryptFinish` reads a four byte
header (three of its bytes behind the data, here `0 0 2`) and appends the two bytes
found at offsets 4 and 5, both behind the data. -/
theorem DecryptFinish_reads_outside :
    ((PDFCryptoHandlerImpl.new (some (PDFProtector.mk (some cbcPolicy) 0))).decryptObject
          (Heap.mk (fun _ => []) 0) 1 0 [(memOf [90] (fun _ => 0), 1)] []
          (fun i => if i = 2 then 2 else if i < 2 then 0 else 50 + i)).toOption.map
        (fun r => (r.1, r.2.2.1.read 0, r.2.2.2))
      = some (true, [0], [53, 54])
    ∧ ¬ (4 ≤ [0].length) ∧ ¬ (4 + 2 ≤ [0].length) :=
  ⟨rfl, by decide, by decide⟩

end RmsSdk
